import Mathlib

/-!
# Verification of the inbox-ai ingestion-and-enrichment pipeline

Shallow embedding of the LiteObject/inbox-ai repository: the core domain
models (`src/inbox_ai/core/models.py`), the SQLite-backed repository
(`src/inbox_ai/storage/sqlite.py`), the sequential orchestrator
(`src/inbox_ai/ingestion/fetcher.py`), the batched/optimized orchestrator
(`src/inbox_ai/ingestion/optimized_fetcher.py`), the follow-up planner
(`src/inbox_ai/intelligence/follow_up.py`) and the batch analyzer
(`src/inbox_ai/intelligence/email_analysis_service.py`).

Conventions of the embedding:
* Python `datetime` values are modeled as integer ticks (`Int`): the code
  only ever stores, copies and compares them.
* Python `float` confidence values are modeled as opaque `Option Int`: the
  pipeline never inspects them.
* Fallible Python calls are modeled with `Except`; the outcome of each
  external service invocation (parser, LLM-backed services) is supplied as
  an explicit per-message behavior, so theorems quantify over every
  possible sequence of service outcomes.
* SHA-256 content hashing is modeled by the hashed string itself (an
  injective abstraction: equal content gives equal hash, which is the only
  property the pipeline relies on).
-/

set_option maxHeartbeats 1000000

namespace InboxAI

/-! ## Core domain models (`core/models.py`) -/

/-- `AttachmentMeta` from `core/models.py`. -/
structure AttachmentMeta where
  filename : Option String
  content_type : Option String
  size : Option Int
deriving Repr, DecidableEq

/-- `EmailBody` from `core/models.py`. -/
structure EmailBody where
  text : Option String
  html : Option String
deriving Repr, DecidableEq

/-- `EmailEnvelope` from `core/models.py`.  The recipient fields `to`,
`cc`, `bcc` are named after their SQL columns (`to` is reserved in
Lean). -/
structure EmailEnvelope where
  uid : Nat
  mailbox : String
  message_id : Option String
  thread_id : Option String
  subject : Option String
  sender : Option String
  to_recipients : List String
  cc_recipients : List String
  bcc_recipients : List String
  sent_at : Option Int
  received_at : Option Int
  body : EmailBody
  attachments : List AttachmentMeta
deriving Repr, DecidableEq

/-- `SyncCheckpoint` from `core/models.py`. -/
structure SyncCheckpoint where
  mailbox : String
  last_uid : Nat
deriving Repr, DecidableEq

/-- `FetchReport` from `core/models.py`. -/
structure FetchReport where
  processed : Nat
  new_last_uid : Option Nat
deriving Repr, DecidableEq

/-- `EmailInsight` from `core/models.py`. -/
structure EmailInsight where
  email_uid : Nat
  summary : String
  action_items : List String
  priority : Int
  provider : String
  generated_at : Int
  used_fallback : Bool
deriving Repr, DecidableEq

/-- `DraftRecord` from `core/models.py`. -/
structure DraftRecord where
  id : Option Nat
  email_uid : Nat
  body : String
  provider : String
  generated_at : Int
  confidence : Option Int
  used_fallback : Bool
deriving Repr, DecidableEq

/-- `FollowUpTask` from `core/models.py`. -/
structure FollowUpTask where
  id : Option Nat
  email_uid : Nat
  action : String
  due_at : Option Int
  status : String
  created_at : Int
  completed_at : Option Int
deriving Repr, DecidableEq

/-- `EmailCategory` from `core/models.py`. -/
structure EmailCategory where
  key : String
  label : String
deriving Repr, DecidableEq

/-! ## SQLite repository state (`storage/sqlite.py`)

Each SQL table is a list of rows in rowid order; `INSERT` appends,
`UPDATE`/upsert rewrites a row in place, `DELETE` filters. -/

/-- A row of the `emails` table: the envelope columns written by
`persist_email` plus the `content_hash` column, which `persist_email`'s
`ON CONFLICT` clause does not touch (it is written only by
`update_content_hash`). -/
structure EmailRow where
  env : EmailEnvelope
  content_hash : Option String
deriving Repr, DecidableEq

/-- A row of the `email_categories` table. -/
structure CategoryRow where
  email_uid : Nat
  category_key : String
  label : String
deriving Repr, DecidableEq

/-- A row of the `follow_ups` table (the store-assigned autoincrement id is
not inspected by any claim and is omitted). -/
structure FollowUpRow where
  email_uid : Nat
  action : String
  due_at : Option Int
  status : String
  created_at : Int
  completed_at : Option Int
deriving Repr, DecidableEq

/-- A row of the `drafts` table (store-assigned id omitted, as above). -/
structure DraftRow where
  email_uid : Nat
  body : String
  provider : String
  generated_at : Int
  confidence : Option Int
  used_fallback : Bool
deriving Repr, DecidableEq

/-- The mutable state of `SqliteEmailRepository`: one field per table used
by the pipeline (`emails`, `email_insights`, `email_categories`,
`follow_ups`, `drafts`, `sync_state`). The `attachments` table is not read
by any claim and is omitted. -/
structure RepoState where
  emails : List EmailRow
  insights : List EmailInsight
  categories : List CategoryRow
  follow_ups : List FollowUpRow
  drafts : List DraftRow
  sync_state : List (String × Nat)
deriving Repr, DecidableEq

/-- A freshly migrated, empty database. -/
def RepoState.empty : RepoState := ⟨[], [], [], [], [], []⟩

/-- `SELECT COUNT(*) FROM emails WHERE uid = ?` as a membership test. -/
def hasEmail (st : RepoState) (uid : Nat) : Bool :=
  st.emails.any (fun r => r.env.uid == uid)

/-- Upsert into `emails` keyed by `uid`, preserving the row's
`content_hash` column (not listed in the `ON CONFLICT ... DO UPDATE`). -/
def upsertEmailRow : List EmailRow → EmailEnvelope → List EmailRow
  | [], e => [⟨e, none⟩]
  | r :: rs, e =>
      if r.env.uid == e.uid then ⟨e, r.content_hash⟩ :: rs
      else r :: upsertEmailRow rs e

/-- `SqliteEmailRepository.persist_email`: validates `uid` and `mailbox`
(Python truthiness: `if not email.uid` rejects UID 0, `if not
email.mailbox` rejects the empty string), then upserts by UID.  Any
database-level failure surfaces as an exception; the caller injects those
separately (see the orchestrator behaviors). -/
def persist_email (st : RepoState) (email : EmailEnvelope) : Except String RepoState :=
  if email.uid == 0 then .error "Email UID is required"
  else if email.mailbox == "" then .error "Email mailbox is required"
  else .ok { st with emails := upsertEmailRow st.emails email }

/-- Upsert into `email_insights` keyed by `email_uid`. -/
def upsertInsightRow : List EmailInsight → EmailInsight → List EmailInsight
  | [], i => [i]
  | r :: rs, i =>
      if r.email_uid == i.email_uid then i :: rs
      else r :: upsertInsightRow rs i

/-- `SqliteEmailRepository.persist_insight`: first checks that the email
row exists (`SELECT COUNT(*) FROM emails WHERE uid = ?`) and raises
`ValueError` before touching `email_insights` when it does not; otherwise
upserts the insight keyed by `email_uid`. -/
def persist_insight (st : RepoState) (insight : EmailInsight) : Except String RepoState :=
  if hasEmail st insight.email_uid then
    .ok { st with insights := upsertInsightRow st.insights insight }
  else
    .error "Email UID must be persisted before its insight"

/-- `SqliteEmailRepository.fetch_insight`. -/
def fetch_insight (st : RepoState) (email_uid : Nat) : Option EmailInsight :=
  st.insights.find? (fun r => r.email_uid == email_uid)

/-- `SqliteEmailRepository.replace_categories`: `DELETE` all rows for the
UID, then `INSERT` one row per supplied category. -/
def replace_categories (st : RepoState) (email_uid : Nat)
    (categories : List EmailCategory) : RepoState :=
  { st with categories :=
      st.categories.filter (fun r => r.email_uid != email_uid)
        ++ categories.map (fun c => ⟨email_uid, c.key, c.label⟩) }

/-- `SqliteEmailRepository.replace_follow_ups`: `DELETE` all rows for the
UID, then `INSERT` one row per supplied task.  The inserted `email_uid`
column is the *parameter*, not `task.email_uid`. -/
def replace_follow_ups (st : RepoState) (email_uid : Nat)
    (tasks : List FollowUpTask) : RepoState :=
  { st with follow_ups :=
      st.follow_ups.filter (fun r => r.email_uid != email_uid)
        ++ tasks.map (fun t =>
            ⟨email_uid, t.action, t.due_at, t.status, t.created_at, t.completed_at⟩) }

/-- `SqliteEmailRepository.persist_draft`: appends a new `drafts` row. -/
def persist_draft (st : RepoState) (draft : DraftRecord) : RepoState :=
  { st with drafts :=
      st.drafts ++ [⟨draft.email_uid, draft.body, draft.provider,
        draft.generated_at, draft.confidence, draft.used_fallback⟩] }

/-- `SqliteEmailRepository.update_content_hash`:
`UPDATE emails SET content_hash = ? WHERE uid = ?`. -/
def update_content_hash (st : RepoState) (email_uid : Nat)
    (content_hash : String) : RepoState :=
  { st with emails :=
      st.emails.map (fun r =>
        if r.env.uid == email_uid then { r with content_hash := some content_hash }
        else r) }

/-- `SqliteEmailRepository.get_checkpoint`, projected to the stored
`last_uid` for the mailbox (`None` when no row exists). -/
def get_checkpoint (st : RepoState) (mailbox : String) : Option Nat :=
  (st.sync_state.find? (fun r => r.1 == mailbox)).map (·.2)

/-- Upsert into `sync_state` keyed by `mailbox`. -/
def upsertSyncRow : List (String × Nat) → String → Nat → List (String × Nat)
  | [], m, u => [(m, u)]
  | r :: rs, m, u =>
      if r.1 == m then (m, u) :: rs else r :: upsertSyncRow rs m u

/-- `SqliteEmailRepository.upsert_checkpoint`: unconditional upsert of the
supplied checkpoint (no clamping, no monotonicity enforcement). -/
def upsert_checkpoint (st : RepoState) (cp : SyncCheckpoint) : RepoState :=
  { st with sync_state := upsertSyncRow st.sync_state cp.mailbox cp.last_uid }

/-- `SqliteEmailRepository.find_cached_analysis`: join of `email_insights`
with `emails` on `email_uid = uid` filtered by `content_hash`, with
`LIMIT 1` and no `ORDER BY`; modeled as the first insight row (in table
order) whose email row carries the hash. -/
def find_cached_analysis (st : RepoState) (content_hash : String) : Option EmailInsight :=
  st.insights.find? (fun ins =>
    match st.emails.find? (fun r => r.env.uid == ins.email_uid) with
    | some r => r.content_hash == some content_hash
    | none => false)

/-! ## Sequential orchestrator (`ingestion/fetcher.py`) -/

/-- Observable repository writes and AI calls, in program order; used to
state "during the run" properties. -/
inductive Event where
  | persistAttempt (uid : Nat) (ok : Bool)
  | insightWrite (ins : EmailInsight)
  | categoriesWrite (uid : Nat) (cats : List EmailCategory)
  | followUpsWrite (uid : Nat) (tasks : List FollowUpTask)
  | draftWrite (d : DraftRecord)
  | checkpointWrite (uid : Nat)
  | aiCall (uid : Nat)
deriving Repr, DecidableEq

/-- Outcome of every fallible call made while `MailFetcher.run` processes
one message.  `Except.error` stands for a raised Python exception,
`Option` for a service returning `None`.  `insight2` is the outcome of the
second, category-aware `generate_insight(envelope, categories)` call. -/
structure MsgBehavior where
  parse : Except Unit EmailEnvelope
  persist_raises : Bool
  insight1 : Except Unit (Option EmailInsight)
  categorize : Except Unit (List EmailCategory)
  insight2 : Except Unit (Option EmailInsight)
  draft : Except Unit (Option DraftRecord)
  plan : Except Unit (Option (List FollowUpTask))
deriving Repr

/-- Constructor arguments of `MailFetcher` that influence control flow;
each optional service is reduced to a presence flag (its per-message
results live in `MsgBehavior`). -/
structure SeqConfig where
  mailbox : String
  max_messages : Option Nat
  has_insight_service : Bool
  has_category_service : Bool
  has_drafting_service : Bool
  has_follow_up_planner : Bool
  user_email : Option String
deriving Repr, DecidableEq

/-- The exclusion set appearing (twice, literally) in `MailFetcher.run`
and once in `OptimizedMailFetcher._store_analysis`. -/
def excludedCategories : List String := ["marketing", "notification", "spam"]

/-- `fetcher.py` lines 110-138: the first insight pass.  The `try` block
spans both `generate_insight` and `persist_insight`, so any exception
(including the repository rejecting the insight) leaves `insight = None`;
a missing insight then falls back to the stored one. -/
def insightFresh (cfg : SeqConfig) (st : RepoState)
    (b : MsgBehavior) : RepoState × List Event × Option EmailInsight :=
  if cfg.has_insight_service then
    match b.insight1 with
    | .ok (some ins) =>
        match persist_insight st ins with
        | .ok st' => (st', [Event.insightWrite ins], some ins)
        | .error _ => (st, [], none)
    | .ok none => (st, [], none)
    | .error _ => (st, [], none)
  else (st, [], none)

/-- Lines 137-138 of `fetcher.py`: when the fresh pass produced nothing,
fall back to the previously stored insight. -/
def insightStage (cfg : SeqConfig) (st : RepoState) (env : EmailEnvelope)
    (b : MsgBehavior) : RepoState × List Event × Option EmailInsight :=
  let fresh := insightFresh cfg st b
  match fresh.2.2 with
  | some i => (fresh.1, fresh.2.1, some i)
  | none => (fresh.1, fresh.2.1, fetch_insight fresh.1 env.uid)

/-- `fetcher.py` lines 140-152: categorize and replace the stored set;
a raising category service leaves `categories = ()`. -/
def categoryStage (cfg : SeqConfig) (st : RepoState) (env : EmailEnvelope)
    (b : MsgBehavior) : RepoState × List Event × List EmailCategory :=
  if cfg.has_category_service then
    match b.categorize with
    | .ok cats =>
        (replace_categories st env.uid cats,
         [Event.categoriesWrite env.uid cats], cats)
    | .error _ => (st, [], [])
  else (st, [], [])

/-- `fetcher.py` lines 154-180: regenerate the insight with the assigned
categories; on success the new insight is persisted (upsert) and replaces
the local one, on any exception the previous insight is kept. -/
def regenStage (cfg : SeqConfig) (st : RepoState) (b : MsgBehavior)
    (insight : Option EmailInsight) : RepoState × List Event × Option EmailInsight :=
  if insight.isSome && cfg.has_insight_service then
    match b.insight2 with
    | .ok (some u) =>
        match persist_insight st u with
        | .ok st' => (st', [Event.insightWrite u], some u)
        | .error _ => (st, [], insight)
    | .ok none => (st, [], insight)
    | .error _ => (st, [], insight)
  else (st, [], insight)

/-- `fetcher.py` lines 184-190: membership of the configured address in
the recipient lists.  Python's `if self._user_email:` is a truthiness
test, so an empty-string address skips the lookup (leaving
`is_personal = False`). -/
def isPersonal (user_email : Option String) (env : EmailEnvelope) : Bool :=
  match user_email with
  | some e =>
      if e == "" then false
      else env.to_recipients.contains e || env.cc_recipients.contains e
            || env.bcc_recipients.contains e
  | none => false

/-- `fetcher.py` lines 183-193: the draft is skipped when the assigned
categories meet the exclusion set, or when a user address is configured
(`is not None`) and the envelope is not addressed to it. -/
def skipDraft (cfg : SeqConfig) (env : EmailEnvelope)
    (categories : List EmailCategory) : Bool :=
  categories.any (fun c => excludedCategories.contains c.key)
    || (cfg.user_email.isSome && !(isPersonal cfg.user_email env))

/-- `fetcher.py` lines 195-215: generate and append a draft; exceptions
and `None` results are swallowed. -/
def draftStage (cfg : SeqConfig) (st : RepoState) (env : EmailEnvelope)
    (b : MsgBehavior) (insight : Option EmailInsight)
    (categories : List EmailCategory) : RepoState × List Event :=
  if cfg.has_drafting_service && insight.isSome && !(skipDraft cfg env categories) then
    match b.draft with
    | .ok (some d) => (persist_draft st d, [Event.draftWrite d])
    | .ok none => (st, [])
    | .error _ => (st, [])
  else (st, [])

/-- `fetcher.py` lines 217-242: follow-up planning, skipped entirely when
the assigned categories meet the exclusion set; exceptions and `None`
results are swallowed. -/
def followUpStage (cfg : SeqConfig) (st : RepoState) (env : EmailEnvelope)
    (b : MsgBehavior) (insight : Option EmailInsight)
    (categories : List EmailCategory) : RepoState × List Event :=
  if cfg.has_follow_up_planner && insight.isSome then
    if categories.any (fun c => excludedCategories.contains c.key) then (st, [])
    else
      match b.plan with
      | .ok (some tasks) =>
          (replace_follow_ups st env.uid tasks,
           [Event.followUpsWrite env.uid tasks])
      | .ok none => (st, [])
      | .error _ => (st, [])
  else (st, [])

/-- `fetcher.py` lines 110-242: the enrichment stages run for a message
whose envelope was persisted, in their fixed order. -/
def enrichMessage (cfg : SeqConfig) (st : RepoState) (env : EmailEnvelope)
    (b : MsgBehavior) : RepoState × List Event :=
  let i := insightStage cfg st env b
  let c := categoryStage cfg i.1 env b
  let g := regenStage cfg c.1 b i.2.2
  let d := draftStage cfg g.1 env b g.2.2 c.2.2
  let f := followUpStage cfg d.1 env b g.2.2 c.2.2
  (f.1, i.2.1 ++ c.2.1 ++ g.2.1 ++ d.2 ++ f.2)

/-- Mutable loop state of `MailFetcher.run`. -/
structure SeqCore where
  repo : RepoState
  processed : Nat
  failed : Nat
  new_last_uid : Option Nat
deriving Repr, DecidableEq

/-- `fetcher.py` line 250: `processed >= self._max_messages`. -/
def maxReached (cfg : SeqConfig) (processed : Nat) : Bool :=
  match cfg.max_messages with
  | some m => m ≤ processed
  | none => false

/-- The outcome of `self._repository.persist_email(envelope)` as observed
by the orchestrators: a database-level failure injected by the behavior,
or the repository's own validation. -/
def persistOutcome (b_raises : Bool) (st : RepoState) (env : EmailEnvelope) :
    Except String RepoState :=
  if b_raises then .error "database failure" else persist_email st env

/-- The message loop of `MailFetcher.run`.  Each chunk is a source UID
paired with the behavior of that iteration's fallible calls.  Returns the
final loop state, the events of this call, and `false` when the run
raised: a parse failure propagates (`fetcher.py` line 80 is outside any
`try`), while a persistence failure is caught, counted as failed, and
still advances the checkpoint before moving on. -/
def seqLoop (cfg : SeqConfig) :
    List (Nat × MsgBehavior) → SeqCore → SeqCore × List Event × Bool
  | [], s => (s, [], true)
  | (chunk_uid, b) :: rest, s =>
    match b.parse with
    | .error _ => (s, [], false)
    | .ok env =>
      match persistOutcome b.persist_raises s.repo env with
      | .error _ =>
          let repo := upsert_checkpoint s.repo ⟨cfg.mailbox, chunk_uid⟩
          let s' : SeqCore := ⟨repo, s.processed, s.failed + 1, some chunk_uid⟩
          let r := seqLoop cfg rest s'
          (r.1, Event.persistAttempt env.uid false :: Event.checkpointWrite chunk_uid :: r.2.1,
           r.2.2)
      | .ok repo1 =>
          let e := enrichMessage cfg repo1 env b
          let repo3 := upsert_checkpoint e.1 ⟨cfg.mailbox, chunk_uid⟩
          let s' : SeqCore := ⟨repo3, s.processed + 1, s.failed, some chunk_uid⟩
          let ev := Event.persistAttempt env.uid true :: (e.2 ++ [Event.checkpointWrite chunk_uid])
          if maxReached cfg s'.processed then (s', ev, true)
          else
            let r := seqLoop cfg rest s'
            (r.1, ev ++ r.2.1, r.2.2)

/-- Result of one orchestrator run: the repository afterwards, the event
trace, and the report (`none` when the run raised; prior writes remain). -/
structure RunResult where
  repo : RepoState
  trace : List Event
  report : Option FetchReport
deriving Repr, DecidableEq

/-- `MailFetcher.run`: read the checkpoint, process the fetched chunks,
report `processed` and the final UID. -/
def MailFetcher.run (cfg : SeqConfig) (chunks : List (Nat × MsgBehavior))
    (st : RepoState) : RunResult :=
  let last_uid := get_checkpoint st cfg.mailbox
  let r := seqLoop cfg chunks ⟨st, 0, 0, last_uid⟩
  ⟨r.1.repo, r.2.1,
   if r.2.2 then some ⟨r.1.processed, r.1.new_last_uid⟩ else none⟩

/-- The `MailboxProvider.fetch_since` contract (`core/interfaces.py`):
yield the mailbox's messages with UID greater than the checkpoint, in
mailbox order. -/
def fetch_since (msgs : List (Nat × MsgBehavior)) (last_uid : Option Nat) :
    List (Nat × MsgBehavior) :=
  match last_uid with
  | none => msgs
  | some c => msgs.filter (fun m => decide (c < m.1))

/-- One orchestrator run against a fixed mailbox: fetch everything after
the stored checkpoint and process it. -/
def runOnMailbox (cfg : SeqConfig) (msgs : List (Nat × MsgBehavior))
    (st : RepoState) : RunResult :=
  MailFetcher.run cfg (fetch_since msgs (get_checkpoint st cfg.mailbox)) st

/-- A sequence of runs against the same mailbox (its contents and the
service outcomes may differ from run to run); returns each run's full
result, oldest first.  Each run starts from the repository the previous
one left behind. -/
def runMany (cfg : SeqConfig) : List (List (Nat × MsgBehavior)) → RepoState →
    List RunResult
  | [], _ => []
  | msgs :: rest, st =>
      let r := runOnMailbox cfg msgs st
      r :: runMany cfg rest r.repo

/-! ## Follow-up planner (`intelligence/follow_up.py`) -/

/-- The three fields of `FollowUpSettings` read by `_estimate_due_at`
(the class itself lives in a part of `core/config.py` not present in this
snapshot; the fields and their integer nature are fixed by
`follow_up.py` and `tests/test_follow_up_planner.py`). -/
structure FollowUpSettings where
  default_due_days : Int
  priority_threshold : Int
  priority_due_days : Int
deriving Repr, DecidableEq

/-- Python's substring test `pat in s`, for a nonempty pattern. -/
def strContains (s pat : String) : Bool :=
  (s.splitOn pat).length != 1

/-- `_estimate_due_at` from `follow_up.py`: keyword-based offsets from
the insight's generation time, else a settings-derived offset.  Ticks are
days (only copying and presence matter to any claim).  Every Python path
returns a datetime, hence always `some`. -/
def estimate_due_at (action : String) (insight_priority : Int)
    (generated_at : Int) (settings : FollowUpSettings) : Option Int :=
  let baseline := generated_at
  let text := action.toLower
  if strContains text "today" then some baseline
  else if strContains text "tomorrow" then some (baseline + 1)
  else if strContains text "next week" then some (baseline + 7)
  else if strContains text "next month" then some (baseline + 30)
  else
    let days :=
      if settings.priority_threshold ≤ insight_priority then settings.priority_due_days
      else settings.default_due_days
    if days == 0 then some baseline else some (baseline + days)

/-- The deduplicating loop of `FollowUpPlannerService.plan_follow_ups`:
`seen` accumulates the lower-cased keys of already-emitted actions. -/
def planLoop (settings : FollowUpSettings) (now : Int) (email_uid : Nat)
    (insight_priority : Int) (insight_generated_at : Int) :
    List String → List String → List FollowUpTask
  | [], _ => []
  | raw :: rest, seen =>
      let action := raw.trim
      if action == "" then
        planLoop settings now email_uid insight_priority insight_generated_at rest seen
      else if seen.contains action.toLower then
        planLoop settings now email_uid insight_priority insight_generated_at rest seen
      else
        { id := none, email_uid := email_uid, action := action,
          due_at := estimate_due_at action insight_priority insight_generated_at settings,
          status := "open", created_at := now, completed_at := none }
          :: planLoop settings now email_uid insight_priority insight_generated_at rest
              (action.toLower :: seen)

/-- `FollowUpPlannerService.plan_follow_ups` (`now` is the wall clock
read on entry). -/
def plan_follow_ups (settings : FollowUpSettings) (now : Int)
    (email : EmailEnvelope) (insight : EmailInsight) : List FollowUpTask :=
  planLoop settings now email.uid insight.priority insight.generated_at
    insight.action_items []

/-! ## Batch analyzer (`intelligence/email_analysis_service.py`) -/

/-- The analyzer's pydantic `FollowUpTask` model: its two declared
fields.  Note the due field is named `due_date` (an optional string), not
`due_at`. -/
structure AnalysisFollowUp where
  action : String
  due_date : Option String
deriving Repr, DecidableEq

/-- The pydantic `EmailAnalysis` model: exactly its seven declared
fields.  In particular it declares no `generated_at` field. -/
structure EmailAnalysis where
  summary : String
  priority : Int
  priority_label : String
  action_items : List String
  categories : List String
  follow_ups : List AnalysisFollowUp
  suggested_reply : String
deriving Repr, DecidableEq

/-- Python error kinds the embedding distinguishes. -/
inductive PyError where
  | attributeError
  | valueError
deriving Repr, DecidableEq

/-- The attribute access `analysis.generated_at` performed by
`OptimizedMailFetcher._store_analysis` (lines 236, 256 and 282 read it
for the insight, follow-up and draft timestamps): the pydantic
`EmailAnalysis` model declares no such field, so pydantic raises
`AttributeError`. -/
def EmailAnalysis.generated_at (_ : EmailAnalysis) : Except PyError Int :=
  .error .attributeError

/-- The attribute access `task.due_at` at `optimized_fetcher.py` line
253: the analyzer's follow-up model declares `due_date`, not `due_at`, so
pydantic raises `AttributeError`. -/
def AnalysisFollowUp.due_at (_ : AnalysisFollowUp) : Except PyError Int :=
  .error .attributeError

/-- The per-envelope fallback substituted by
`OptimizedEmailAnalyzer.analyze_batch` (lines 302-313) when a gathered
analysis task raised.  The f-string renders an absent sender as
`None`. -/
def batchFallbackAnalysis (env : EmailEnvelope) : EmailAnalysis where
  summary := "Email from " ++ (match env.sender with | some s => s | none => "None")
  priority := 5
  priority_label := "Medium"
  action_items := ["Review this email"]
  categories := ["Uncategorized"]
  follow_ups := []
  suggested_reply := "Thank you for your email."

/-- `OptimizedEmailAnalyzer.analyze_batch`: one `analyze_comprehensive`
task per envelope, gathered with `return_exceptions=True` (so the gather
itself never fails), each raised result replaced by the fallback, all
results in input order.  The per-envelope outcomes are supplied by the
caller. -/
def analyze_batch (envelopes : List EmailEnvelope)
    (outcomes : List (Except Unit EmailAnalysis)) : List EmailAnalysis :=
  (envelopes.zip outcomes).map (fun p =>
    match p.2 with
    | .ok a => a
    | .error _ => batchFallbackAnalysis p.1)

/-! ## Batched/optimized orchestrator (`ingestion/optimized_fetcher.py`) -/

/-- Python's `x or y` for an optional string: `y` when `x` is `None` or
empty (falsy). -/
def pyStrOr (x : Option String) (y : String) : String :=
  match x with
  | some s => if s == "" then y else s
  | none => y

/-- `OptimizedMailFetcher._compute_content_hash`: SHA-256 over
subject, sender and body text (falling back to HTML, then empty), modeled
by the hashed string itself — an injective abstraction; the pipeline only
ever compares hashes of contents for equality. -/
def compute_content_hash (env : EmailEnvelope) : String :=
  pyStrOr env.subject "" ++ "\n" ++ pyStrOr env.sender "" ++ "\n"
    ++ pyStrOr env.body.text (pyStrOr env.body.html "")

/-- `cat.replace("_", " ").title()` as used for category labels (ASCII
words; no claim examines label text). -/
def pyTitle (s : String) : String :=
  String.intercalate " " (((s.replace "_" " ").splitOn " ").map
    (fun w => w.toLower.capitalize))

/-- Constructor arguments of `OptimizedMailFetcher` that influence
control flow (`batch_size` only shapes the provider's chunking and is
absorbed into the supplied chunk list). -/
structure OptConfig where
  mailbox : String
  max_messages : Option Nat
  analysis_batch_size : Nat
  user_email : Option String
deriving Repr, DecidableEq

/-- Per-chunk behavior for `OptimizedMailFetcher.run`: the parse
outcome, whether `persist_email` raises (it is not wrapped in `try`
there), and the outcome of this envelope's `analyze_comprehensive` task
inside `analyze_batch`. -/
structure OptMsgBehavior where
  parse : Except Unit EmailEnvelope
  persist_raises : Bool
  analyze : Except Unit EmailAnalysis
deriving Repr

/-- `OptimizedMailFetcher._store_analysis`, statement by statement,
returning the writes performed before any raised exception.  The very
first statement builds an `EmailInsight` whose timestamp argument
evaluates `analysis.generated_at`, which raises `AttributeError` (see
`EmailAnalysis.generated_at`): the method always raises before persisting
anything, and everything below that access is unreachable (it is modeled
anyway, including the `status="pending"` follow-up rows and the
`task.due_at` access). -/
def store_analysis (cfg : OptConfig) (st : RepoState) (env : EmailEnvelope)
    (analysis : EmailAnalysis) : RepoState × List Event × Option PyError :=
  match analysis.generated_at with
  | .error e => (st, [], some e)
  | .ok gen =>
    let insight : EmailInsight :=
      { email_uid := env.uid, summary := analysis.summary,
        action_items := analysis.action_items, priority := analysis.priority,
        provider := "ollama-optimized", generated_at := gen,
        used_fallback := false }
    match persist_insight st insight with
    | .error _ => (st, [], some PyError.valueError)
    | .ok st1 =>
      let cats := analysis.categories.map (fun c => EmailCategory.mk c (pyTitle c))
      let st2 := replace_categories st1 env.uid cats
      let ev2 := [Event.insightWrite insight, Event.categoriesWrite env.uid cats]
      match analysis.follow_ups.mapM (fun t =>
          (t.due_at).map (fun due =>
            FollowUpTask.mk none env.uid t.action (some due) "pending" gen none)) with
      | .error e => (st2, ev2, some e)
      | .ok fus =>
        let st3 := replace_follow_ups st2 env.uid fus
        let ev3 := ev2 ++ [Event.followUpsWrite env.uid fus]
        let skip1 := analysis.categories.any (fun c => excludedCategories.contains c)
        let skip :=
          match cfg.user_email with
          | some e =>
              if e == "" then skip1
              else skip1 || !(env.to_recipients.contains e
                    || env.cc_recipients.contains e || env.bcc_recipients.contains e)
          | none => skip1
        if !skip && analysis.suggested_reply != "" then
          let d : DraftRecord :=
            ⟨none, env.uid, analysis.suggested_reply, "ollama-optimized", gen, none, false⟩
          (persist_draft st3 d, ev3 ++ [Event.draftWrite d], none)
        else (st3, ev3, none)

/-- The cache-check loop of `_process_batch` (lines 159-176): store each
envelope's content hash, then split the batch into cache misses (in
order, with their analysis outcomes) and cache hits (uid paired with the
cached insight, in insertion order). -/
def cacheCheckLoop : RepoState → List (EmailEnvelope × Except Unit EmailAnalysis) →
    RepoState × List (EmailEnvelope × Except Unit EmailAnalysis) × List (Nat × EmailInsight)
  | st, [] => (st, [], [])
  | st, (env, a) :: rest =>
      let st1 := update_content_hash st env.uid (compute_content_hash env)
      match find_cached_analysis st1 (compute_content_hash env) with
      | some cached =>
          let r := cacheCheckLoop st1 rest
          (r.1, r.2.1, (env.uid, cached) :: r.2.2)
      | none =>
          let r := cacheCheckLoop st1 rest
          (r.1, (env, a) :: r.2.1, r.2.2)

/-- Lines 189-191 of `_process_batch`: store each fresh analysis in
order; an exception from `_store_analysis` propagates, keeping the writes
made so far. -/
def storeLoop (cfg : OptConfig) : RepoState → List (EmailEnvelope × EmailAnalysis) →
    RepoState × List Event × Option PyError
  | st, [] => (st, [], none)
  | st, (env, a) :: rest =>
      let sa := store_analysis cfg st env a
      match sa.2.2 with
      | none =>
          let r := storeLoop cfg sa.1 rest
          (r.1, sa.2.1 ++ r.2.1, r.2.2)
      | some e => (sa.1, sa.2.1, some e)

/-- Lines 194-216 of `_process_batch`: persist a copy of each cached
insight under the new UID with the provider re-tagged `" (cached)"`, then
placeholder categories derived from the first three whitespace-separated
words of the cached summary. -/
def cachedLoop : RepoState → List (Nat × EmailInsight) →
    RepoState × List Event × Option PyError
  | st, [] => (st, [], none)
  | st, (uid, cached) :: rest =>
      let new_insight : EmailInsight :=
        { email_uid := uid, summary := cached.summary,
          action_items := cached.action_items, priority := cached.priority,
          provider := cached.provider ++ " (cached)",
          generated_at := cached.generated_at,
          used_fallback := cached.used_fallback }
      match persist_insight st new_insight with
      | .error _ => (st, [], some PyError.valueError)
      | .ok st1 =>
          let words := (cached.summary.split Char.isWhitespace).filter (fun w => w != "")
          let cats := (words.take 3).map (fun c => EmailCategory.mk c (pyTitle c))
          let st2 := replace_categories st1 uid cats
          let r := cachedLoop st2 rest
          (r.1, Event.insightWrite new_insight :: Event.categoriesWrite uid cats :: r.2.1,
           r.2.2)

/-- `OptimizedMailFetcher._process_batch`: hash-and-cache check over the
whole batch, one composite AI round-trip per miss (`aiCall` events),
store the fresh results (the first `_store_analysis` raises), then reuse
the cached ones.  Metrics are telemetry only and are not modeled. -/
def process_batch (cfg : OptConfig) (st : RepoState)
    (batch : List (EmailEnvelope × Except Unit EmailAnalysis)) :
    RepoState × List Event × Option PyError :=
  if batch.isEmpty then (st, [], none)
  else
    let cc := cacheCheckLoop st batch
    let misses := cc.2.1
    let aiEvents := misses.map (fun m => Event.aiCall m.1.uid)
    let results := analyze_batch (misses.map (·.1)) (misses.map (·.2))
    let sl := storeLoop cfg cc.1 ((misses.map (·.1)).zip results)
    match sl.2.2 with
    | some e => (sl.1, aiEvents ++ sl.2.1, some e)
    | none =>
        let cl := cachedLoop sl.1 cc.2.2
        (cl.1, aiEvents ++ sl.2.1 ++ cl.2.1, cl.2.2)

/-- Mutable loop state of `OptimizedMailFetcher.run`. -/
structure OptCore where
  repo : RepoState
  processed : Nat
  new_last_uid : Option Nat
  pending : List (EmailEnvelope × Except Unit EmailAnalysis)
deriving Repr

/-- `optimized_fetcher.py` line 124: `processed >= self._max_messages`. -/
def optMaxReached (cfg : OptConfig) (processed : Nat) : Bool :=
  match cfg.max_messages with
  | some m => m ≤ processed
  | none => false

/-- The message loop of `OptimizedMailFetcher.run`.  Nothing in this loop
is wrapped in `try`: a parse failure, a `persist_email` failure or an
exception out of `_process_batch` propagates and aborts the run
(`false`), with the checkpoint not advanced for the current message and
all earlier writes left in place. -/
def optLoop (cfg : OptConfig) :
    List (Nat × OptMsgBehavior) → OptCore → OptCore × List Event × Bool
  | [], s => (s, [], true)
  | (chunk_uid, b) :: rest, s =>
    match b.parse with
    | .error _ => (s, [], false)
    | .ok env =>
      match persistOutcome b.persist_raises s.repo env with
      | .error _ => (s, [Event.persistAttempt env.uid false], false)
      | .ok repo1 =>
          let pending := s.pending ++ [(env, b.analyze)]
          if cfg.analysis_batch_size ≤ pending.length then
            let pb := process_batch cfg repo1 pending
            match pb.2.2 with
            | some _ =>
                (⟨pb.1, s.processed, s.new_last_uid, pending⟩,
                 Event.persistAttempt env.uid true :: pb.2.1, false)
            | none =>
                let repo3 := upsert_checkpoint pb.1 ⟨cfg.mailbox, chunk_uid⟩
                let s' : OptCore := ⟨repo3, s.processed + 1, some chunk_uid, []⟩
                let ev := Event.persistAttempt env.uid true ::
                    (pb.2.1 ++ [Event.checkpointWrite chunk_uid])
                if optMaxReached cfg s'.processed then (s', ev, true)
                else
                  let r := optLoop cfg rest s'
                  (r.1, ev ++ r.2.1, r.2.2)
          else
            let repo3 := upsert_checkpoint repo1 ⟨cfg.mailbox, chunk_uid⟩
            let s' : OptCore := ⟨repo3, s.processed + 1, some chunk_uid, pending⟩
            let ev := [Event.persistAttempt env.uid true, Event.checkpointWrite chunk_uid]
            if optMaxReached cfg s'.processed then (s', ev, true)
            else
              let r := optLoop cfg rest s'
              (r.1, ev ++ r.2.1, r.2.2)

/-- `OptimizedMailFetcher.run`: read the checkpoint, run the loop, flush
any partial buffer (also after a `max_messages` break), and report;
a raised exception yields no report but keeps all completed writes. -/
def OptimizedMailFetcher.run (cfg : OptConfig)
    (chunks : List (Nat × OptMsgBehavior)) (st : RepoState) : RunResult :=
  let last_uid := get_checkpoint st cfg.mailbox
  let r := optLoop cfg chunks ⟨st, 0, last_uid, []⟩
  let s := r.1
  if r.2.2 then
    if s.pending.isEmpty then ⟨s.repo, r.2.1, some ⟨s.processed, s.new_last_uid⟩⟩
    else
      let pb := process_batch cfg s.repo s.pending
      match pb.2.2 with
      | some _ => ⟨pb.1, r.2.1 ++ pb.2.1, none⟩
      | none => ⟨pb.1, r.2.1 ++ pb.2.1, some ⟨s.processed, s.new_last_uid⟩⟩
  else ⟨s.repo, r.2.1, none⟩

/-! ## Helper definitions for the theorems -/

/-- UIDs of envelopes for which persistence was attempted (success or
failure), in trace order. -/
def attemptUids (tr : List Event) : List Nat :=
  tr.filterMap (fun e => match e with
    | .persistAttempt u _ => some u
    | _ => none)

/-- UIDs written to the checkpoint, in trace order. -/
def checkpointUids (tr : List Event) : List Nat :=
  tr.filterMap (fun e => match e with
    | .checkpointWrite u => some u
    | _ => none)

/-- The parser contract (`parser.py` line 38: the envelope's `uid` is the
chunk's `uid` argument), as a decidable side condition on a chunk list. -/
def uidConsistentB (chunks : List (Nat × MsgBehavior)) : Bool :=
  chunks.all (fun p => match p.2.parse with
    | .ok env => env.uid == p.1
    | .error _ => true)

/-- The drafting-service contract (`drafter.py` line 67: the draft's
`email_uid` is the envelope's `uid`), as a decidable side condition. -/
def draftAlignedB (chunks : List (Nat × MsgBehavior)) : Bool :=
  chunks.all (fun p => match p.2.parse, p.2.draft with
    | .ok env, .ok (some d) => d.email_uid == env.uid
    | _, _ => true)

/-- The concrete planner's output shape (`follow_up.py` lines 43-53:
status `"open"`, no completion timestamp), as a decidable side condition
on the planner outcomes of a chunk list. -/
def plansOpenB (chunks : List (Nat × MsgBehavior)) : Bool :=
  chunks.all (fun p => match p.2.plan with
    | .ok (some ts) => ts.all (fun t => t.status == "open" && t.completed_at == none)
    | _ => true)

/-- The downstream-of-persistence invariant of spec section 3: every
insight, category, follow-up and draft row references an existing email
row. -/
def ReferentialIntegrity (st : RepoState) : Prop :=
  (∀ i ∈ st.insights, hasEmail st i.email_uid = true)
  ∧ (∀ c ∈ st.categories, hasEmail st c.email_uid = true)
  ∧ (∀ f ∈ st.follow_ups, hasEmail st f.email_uid = true)
  ∧ (∀ d ∈ st.drafts, hasEmail st d.email_uid = true)

/-- Per-run checkpoint bookkeeping along a sequence of runs: each run
writes the checkpoint exactly at its persistence attempts; a run with no
attempts leaves the checkpoint untouched; a run with attempts ends with
the checkpoint equal to the largest attempted UID. -/
def RunChainOK (cfg : SeqConfig) : RepoState → List RunResult → Prop
  | _, [] => True
  | st, r :: rs =>
      (checkpointUids r.trace = attemptUids r.trace)
      ∧ (attemptUids r.trace = [] →
          get_checkpoint r.repo cfg.mailbox = get_checkpoint st cfg.mailbox)
      ∧ (attemptUids r.trace ≠ [] →
          ∃ m, get_checkpoint r.repo cfg.mailbox = some m
            ∧ m ∈ attemptUids r.trace
            ∧ ∀ v ∈ attemptUids r.trace, v ≤ m)
      ∧ RunChainOK cfg r.repo rs

/-- The full history of stored checkpoint values for the mailbox over a
sequence of runs: the initial stored value (if any) followed by every
checkpoint write of every run, in order. -/
def cpSequence (cfg : SeqConfig) (st : RepoState) (runs : List RunResult) : List Nat :=
  (get_checkpoint st cfg.mailbox).toList
    ++ (runs.map (fun r => checkpointUids r.trace)).flatten

/-! ## Concrete fixtures used by witnesses and counterexamples -/

/-- Witness fixture: a concrete envelope. -/
def envW1 : EmailEnvelope :=
  ⟨1, "INBOX", none, none, some "Hello", some "a@example.com",
   ["me@example.com"], [], [], none, none, ⟨some "hi", none⟩, []⟩

/-- Witness fixture: a second concrete envelope. -/
def envW2 : EmailEnvelope :=
  ⟨2, "INBOX", none, none, some "World", some "b@example.com",
   ["me@example.com"], [], [], none, none, ⟨some "yo", none⟩, []⟩

/-- Witness fixture: a successful composite analysis. -/
def analysisW : EmailAnalysis :=
  ⟨"summary", 7, "High", ["act"], ["work"], [], "reply"⟩

/-- Witness fixture: an insight with a duplicate, a blank and a
case-variant action item. -/
def insightW : EmailInsight :=
  ⟨1, "summary", ["  Reply to Bob ", "reply to bob", " ", "Send report"], 5,
   "test", 100, false⟩

/-- Witness fixture: planner settings. -/
def settingsW : FollowUpSettings := ⟨3, 7, 1⟩

/-- The second insight call `generate_insight(envelope, categories)` at
`fetcher.py` line 157, evaluated against the repository's only
`InsightService` implementation: `SummarizationService.generate_insight`
(`intelligence/summarizer.py` line 38) declares exactly one parameter,
`email` — as do the `InsightService` protocol and the test stubs — so the
two-positional-argument call raises `TypeError` before the service body
runs. -/
def summarization_generate_insight_with_categories :
    Except Unit (Option EmailInsight) := .error ()

/-- The first, category-unaware insight of the C6 scenario. -/
def insC6first : EmailInsight :=
  ⟨1, "first insight", ["Do thing"], 4, "ollama", 10, false⟩

/-- C6 scenario behavior: parse and persistence succeed, the first
insight succeeds, categorization assigns one category, and the
regeneration call behaves as `SummarizationService` forces it to. -/
def behaviorC6 : MsgBehavior :=
  ⟨.ok envW1, false, .ok (some insC6first), .ok [⟨"work", "Work"⟩],
   summarization_generate_insight_with_categories, .ok none, .ok none⟩

/-- C6 config: insight and category services configured. -/
def cfgC6 : SeqConfig := ⟨"INBOX", none, true, true, false, false, none⟩

/-- Two envelopes with identical (subject, sender, body-text) content
under different UIDs. -/
def envC3a : EmailEnvelope :=
  ⟨1, "INBOX", none, none, some "Same Subject", some "alice@example.com",
   ["me@example.com"], [], [], none, none, ⟨some "same body", none⟩, []⟩

/-- The duplicate-content envelope under UID 2. -/
def envC3b : EmailEnvelope := { envC3a with uid := 2 }

/-- A successful composite analysis for the C3 scenario. -/
def analysisC3 : EmailAnalysis :=
  ⟨"A useful summary", 7, "High", ["act"], ["work"], [], "reply"⟩

/-- C3 behavior for the first duplicate. -/
def obC3a : OptMsgBehavior := ⟨.ok envC3a, false, .ok analysisC3⟩

/-- C3 behavior for the second duplicate. -/
def obC3b : OptMsgBehavior := ⟨.ok envC3b, false, .ok analysisC3⟩

/-- C3 config: the default `analysis_batch_size = 5`, so both messages
land in one analysis batch. -/
def cfgC3 : OptConfig := ⟨"INBOX", none, 5, none⟩

/-- The batched run over the two identical-content envelopes. -/
def runC3 : RunResult :=
  OptimizedMailFetcher.run cfgC3 [(1, obC3a), (2, obC3b)] RepoState.empty

/-- C4 fixture: a draft for the excluded-category scenario. -/
def draftC4 : DraftRecord := ⟨none, 1, "draft body", "stub", 10, none, false⟩

/-- C4 fixture: a follow-up task for the excluded-category scenario. -/
def taskC4 : FollowUpTask := ⟨none, 1, "Do something", none, "open", 10, none⟩

/-- C4 fixture: a message categorized as spam whose drafting and planning
services would happily produce output. -/
def behaviorC4 : MsgBehavior :=
  ⟨.ok envC3a, false, .ok (some insC6first), .ok [⟨"spam", "Spam"⟩],
   .error (), .ok (some draftC4), .ok (some [taskC4])⟩

/-- C4 config: all services configured. -/
def cfgC4 : SeqConfig := ⟨"INBOX", none, true, true, true, true, none⟩

/-- C2 fixture: a chunk whose persistence raises in the batched
orchestrator. -/
def obC2fail : OptMsgBehavior := ⟨.ok envC3a, true, .ok analysisC3⟩

/-- The batched run whose first message fails to persist. -/
def runC2 : RunResult :=
  OptimizedMailFetcher.run cfgC3 [(1, obC2fail), (2, obC3b)] RepoState.empty

/-- C2 sequential fixture: a message whose persistence raises. -/
def behaviorC2seq : MsgBehavior :=
  ⟨.ok envC3a, true, .ok none, .ok [], .error (), .ok none, .ok none⟩

/-- A minimal sequential config with no services. -/
def cfgW : SeqConfig := ⟨"INBOX", none, false, false, false, false, none⟩

/-- A fresh sequential loop state. -/
def coreW : SeqCore := ⟨RepoState.empty, 0, 0, none⟩

/-- A fresh optimized loop state. -/
def ocoreW : OptCore := ⟨RepoState.empty, 0, none, []⟩

/-! ## General helper lemmas -/

theorem filter_ne_then_eq {α : Type} (key : α → Nat) (uid : Nat) (l : List α) :
    (l.filter (fun r => key r != uid)).filter (fun r => key r == uid) = [] := by
  induction l with
  | nil => rfl
  | cons a t ih =>
      by_cases h : key a = uid
      · simp [List.filter_cons, h, ih]
      · simp [List.filter_cons, h, ih]

theorem filter_eq_of_all {α : Type} (p : α → Bool) (l : List α)
    (h : ∀ x ∈ l, p x = true) : l.filter p = l :=
  List.filter_eq_self.mpr h

/-! ## Repository-operation and stage shape lemmas -/

theorem persist_email_ok_eq {st : RepoState} {e : EmailEnvelope} {st' : RepoState}
    (h : persist_email st e = .ok st') :
    st' = { st with emails := upsertEmailRow st.emails e } := by
  unfold persist_email at h
  split_ifs at h
  exact (Except.ok.inj h).symm

theorem persistOutcome_ok_eq {br : Bool} {st : RepoState} {env : EmailEnvelope}
    {st' : RepoState} (h : persistOutcome br st env = .ok st') :
    st' = { st with emails := upsertEmailRow st.emails env } := by
  unfold persistOutcome at h
  split_ifs at h
  exact persist_email_ok_eq h

theorem persist_insight_ok_eq {st : RepoState} {i : EmailInsight} {st' : RepoState}
    (h : persist_insight st i = .ok st') :
    st' = { st with insights := upsertInsightRow st.insights i }
      ∧ hasEmail st i.email_uid = true := by
  unfold persist_insight at h
  split_ifs at h with hh
  exact ⟨(Except.ok.inj h).symm, hh⟩

theorem insightFresh_shape (cfg : SeqConfig) (st : RepoState) (b : MsgBehavior) :
    ∃ l, (insightFresh cfg st b).1 = { st with insights := l } := by
  cases hsvc : cfg.has_insight_service with
  | false => exact ⟨st.insights, by simp [insightFresh, hsvc]⟩
  | true =>
      rcases hi : b.insight1 with e | ins
      · exact ⟨st.insights, by simp [insightFresh, hsvc, hi]⟩
      · rcases ins with _ | ins
        · exact ⟨st.insights, by simp [insightFresh, hsvc, hi]⟩
        · rcases hpi : persist_insight st ins with e | st2
          · exact ⟨st.insights, by simp [insightFresh, hsvc, hi, hpi]⟩
          · refine ⟨upsertInsightRow st.insights ins, ?_⟩
            have : (insightFresh cfg st b).1 = st2 := by
              simp [insightFresh, hsvc, hi, hpi]
            rw [this]
            exact (persist_insight_ok_eq hpi).1

theorem insightStage_shape (cfg : SeqConfig) (st : RepoState) (env : EmailEnvelope)
    (b : MsgBehavior) :
    ∃ l, (insightStage cfg st env b).1 = { st with insights := l } := by
  obtain ⟨l, hl⟩ := insightFresh_shape cfg st b
  refine ⟨l, ?_⟩
  have h2 : (insightStage cfg st env b).1 = (insightFresh cfg st b).1 := by
    unfold insightStage
    cases hcase : (insightFresh cfg st b).2.2 <;> simp [hcase]
  rw [h2, hl]

theorem categoryStage_shape (cfg : SeqConfig) (st : RepoState) (env : EmailEnvelope)
    (b : MsgBehavior) :
    ∃ l, (categoryStage cfg st env b).1 = { st with categories := l } := by
  cases hsvc : cfg.has_category_service with
  | false => exact ⟨st.categories, by simp [categoryStage, hsvc]⟩
  | true =>
      rcases hc : b.categorize with e | cats
      · exact ⟨st.categories, by simp [categoryStage, hsvc, hc]⟩
      · exact ⟨st.categories.filter (fun r => r.email_uid != env.uid)
            ++ cats.map (fun c => ⟨env.uid, c.key, c.label⟩),
          by simp [categoryStage, hsvc, hc, replace_categories]⟩

theorem regenStage_shape (cfg : SeqConfig) (st : RepoState) (b : MsgBehavior)
    (ins : Option EmailInsight) :
    ∃ l, (regenStage cfg st b ins).1 = { st with insights := l } := by
  by_cases hcond : (ins.isSome && cfg.has_insight_service) = true
  · rcases hi : b.insight2 with e | u
    · exact ⟨st.insights, by simp [regenStage, hcond, hi]⟩
    · rcases u with _ | u
      · exact ⟨st.insights, by simp [regenStage, hcond, hi]⟩
      · rcases hpi : persist_insight st u with e | st2
        · exact ⟨st.insights, by simp [regenStage, hcond, hi, hpi]⟩
        · refine ⟨upsertInsightRow st.insights u, ?_⟩
          have : (regenStage cfg st b ins).1 = st2 := by
            simp [regenStage, hcond, hi, hpi]
          rw [this]
          exact (persist_insight_ok_eq hpi).1
  · exact ⟨st.insights, by simp [regenStage, hcond]⟩

theorem draftStage_shape (cfg : SeqConfig) (st : RepoState) (env : EmailEnvelope)
    (b : MsgBehavior) (ins : Option EmailInsight) (cats : List EmailCategory) :
    ∃ l, (draftStage cfg st env b ins cats).1 = { st with drafts := l } := by
  by_cases hcond : (cfg.has_drafting_service && ins.isSome && !(skipDraft cfg env cats))
      = true
  · rcases hd : b.draft with e | d
    · exact ⟨st.drafts, by simp [draftStage, hcond, hd]⟩
    · rcases d with _ | d
      · exact ⟨st.drafts, by simp [draftStage, hcond, hd]⟩
      · exact ⟨st.drafts ++ [⟨d.email_uid, d.body, d.provider, d.generated_at,
            d.confidence, d.used_fallback⟩],
          by simp [draftStage, hcond, hd, persist_draft]⟩
  · exact ⟨st.drafts, by simp [draftStage, hcond]⟩

theorem followUpStage_shape (cfg : SeqConfig) (st : RepoState) (env : EmailEnvelope)
    (b : MsgBehavior) (ins : Option EmailInsight) (cats : List EmailCategory) :
    ∃ l, (followUpStage cfg st env b ins cats).1 = { st with follow_ups := l } := by
  by_cases hcond : (cfg.has_follow_up_planner && ins.isSome) = true
  · by_cases hskip : (cats.any (fun c => excludedCategories.contains c.key)) = true
    · have hskip' : ∃ x ∈ cats, x.key ∈ excludedCategories := by simpa using hskip
      exact ⟨st.follow_ups, by simp [followUpStage, hcond, hskip']⟩
    · have hskip' : ¬∃ x ∈ cats, x.key ∈ excludedCategories := by simpa using hskip
      rcases hp : b.plan with e | ts
      · exact ⟨st.follow_ups, by simp [followUpStage, hcond, hskip', hp]⟩
      · rcases ts with _ | ts
        · exact ⟨st.follow_ups, by simp [followUpStage, hcond, hskip', hp]⟩
        · exact ⟨st.follow_ups.filter (fun r => r.email_uid != env.uid)
              ++ ts.map (fun t => ⟨env.uid, t.action, t.due_at, t.status,
                  t.created_at, t.completed_at⟩),
            by simp [followUpStage, hcond, hskip', hp, replace_follow_ups]⟩
  · exact ⟨st.follow_ups, by simp [followUpStage, hcond]⟩

/-- Category, regen, draft and follow-up stages applied in the order of
`enrichMessage`, with their arguments spelled out (used to transport
per-stage facts to the whole enrichment step). -/
theorem enrichMessage_shape (cfg : SeqConfig) (st : RepoState)
    (env : EmailEnvelope) (b : MsgBehavior) :
    ∃ li lc lf ld, (enrichMessage cfg st env b).1
      = RepoState.mk st.emails li lc lf ld st.sync_state := by
  obtain ⟨l1, h1⟩ := insightStage_shape cfg st env b
  obtain ⟨l2, h2⟩ := categoryStage_shape cfg (insightStage cfg st env b).1 env b
  obtain ⟨l3, h3⟩ := regenStage_shape cfg
      (categoryStage cfg (insightStage cfg st env b).1 env b).1 b
      (insightStage cfg st env b).2.2
  obtain ⟨l4, h4⟩ := draftStage_shape cfg
      (regenStage cfg (categoryStage cfg (insightStage cfg st env b).1 env b).1 b
        (insightStage cfg st env b).2.2).1 env b
      (regenStage cfg (categoryStage cfg (insightStage cfg st env b).1 env b).1 b
        (insightStage cfg st env b).2.2).2.2
      (categoryStage cfg (insightStage cfg st env b).1 env b).2.2
  obtain ⟨l5, h5⟩ := followUpStage_shape cfg
      (draftStage cfg
        (regenStage cfg (categoryStage cfg (insightStage cfg st env b).1 env b).1 b
          (insightStage cfg st env b).2.2).1 env b
        (regenStage cfg (categoryStage cfg (insightStage cfg st env b).1 env b).1 b
          (insightStage cfg st env b).2.2).2.2
        (categoryStage cfg (insightStage cfg st env b).1 env b).2.2).1 env b
      (regenStage cfg (categoryStage cfg (insightStage cfg st env b).1 env b).1 b
        (insightStage cfg st env b).2.2).2.2
      (categoryStage cfg (insightStage cfg st env b).1 env b).2.2
  refine ⟨l3, l2, l5, l4, ?_⟩
  simp only [enrichMessage]
  rw [h5, h4, h3, h2, h1]

/-- The enrichment step never touches `emails` or `sync_state`. -/
theorem enrich_preserves (cfg : SeqConfig) (st : RepoState)
    (env : EmailEnvelope) (b : MsgBehavior) :
    (enrichMessage cfg st env b).1.sync_state = st.sync_state
    ∧ (enrichMessage cfg st env b).1.emails = st.emails := by
  obtain ⟨li, lc, lf, ld, h⟩ := enrichMessage_shape cfg st env b
  rw [h]
  exact ⟨rfl, rfl⟩

/-- Enrichment-write events: everything except persistence attempts,
checkpoint writes and AI calls. -/
def isEnrichEvent : Event → Bool
  | .insightWrite _ => true
  | .categoriesWrite _ _ => true
  | .followUpsWrite _ _ => true
  | .draftWrite _ => true
  | _ => false

theorem attemptUids_of_enrich {tr : List Event}
    (h : ∀ e ∈ tr, isEnrichEvent e = true) :
    attemptUids tr = [] ∧ checkpointUids tr = [] := by
  induction tr with
  | nil => exact ⟨rfl, rfl⟩
  | cons e es ih =>
      have he := h e (List.mem_cons_self _ _)
      have hes := ih (fun x hx => h x (List.mem_cons_of_mem _ hx))
      cases e <;> simp_all [attemptUids, checkpointUids, isEnrichEvent]

theorem insightFresh_events (cfg : SeqConfig) (st : RepoState) (b : MsgBehavior) :
    ∀ e ∈ (insightFresh cfg st b).2.1, ∃ ins, e = Event.insightWrite ins := by
  intro e he
  unfold insightFresh at he
  split at he
  · split at he
    · split at he
      · simp at he
        exact ⟨_, he⟩
      · simp at he
    · simp at he
    · simp at he
  · simp at he

theorem insightStage_events (cfg : SeqConfig) (st : RepoState)
    (env : EmailEnvelope) (b : MsgBehavior) :
    ∀ e ∈ (insightStage cfg st env b).2.1, ∃ ins, e = Event.insightWrite ins := by
  intro e he
  have h2 : (insightStage cfg st env b).2.1 = (insightFresh cfg st b).2.1 := by
    unfold insightStage
    cases hcase : (insightFresh cfg st b).2.2 <;> simp [hcase]
  rw [h2] at he
  exact insightFresh_events cfg st b e he

/-- The category stage either writes nothing and yields no categories, or
performs exactly one category write for the envelope's UID with the
service's output. -/
theorem categoryStage_events (cfg : SeqConfig) (st : RepoState)
    (env : EmailEnvelope) (b : MsgBehavior) :
    ((categoryStage cfg st env b).2.1 = []
        ∧ (categoryStage cfg st env b).2.2 = [])
    ∨ (∃ cats, b.categorize = .ok cats
        ∧ (categoryStage cfg st env b).2.1 = [Event.categoriesWrite env.uid cats]
        ∧ (categoryStage cfg st env b).2.2 = cats) := by
  cases hsvc : cfg.has_category_service with
  | false => exact Or.inl (by simp [categoryStage, hsvc])
  | true =>
      rcases hc : b.categorize with e | cats
      · exact Or.inl (by simp [categoryStage, hsvc, hc])
      · exact Or.inr ⟨cats, rfl, by simp [categoryStage, hsvc, hc]⟩

theorem regenStage_events (cfg : SeqConfig) (st : RepoState) (b : MsgBehavior)
    (ins : Option EmailInsight) :
    ∀ e ∈ (regenStage cfg st b ins).2.1, ∃ u, e = Event.insightWrite u := by
  intro e he
  unfold regenStage at he
  split at he
  · split at he
    · split at he
      · simp at he
        exact ⟨_, he⟩
      · simp at he
    · simp at he
    · simp at he
  · simp at he

theorem draftStage_events (cfg : SeqConfig) (st : RepoState) (env : EmailEnvelope)
    (b : MsgBehavior) (ins : Option EmailInsight) (cats : List EmailCategory) :
    ∀ e ∈ (draftStage cfg st env b ins cats).2,
      ∃ d, e = Event.draftWrite d ∧ b.draft = .ok (some d) := by
  intro e he
  unfold draftStage at he
  split at he
  · split at he
    · rename_i d hd
      simp at he
      exact ⟨d, he, hd⟩
    · simp at he
    · simp at he
  · simp at he

/-- An excluded category set suppresses the draft stage entirely. -/
theorem draftStage_skip (cfg : SeqConfig) (st : RepoState) (env : EmailEnvelope)
    (b : MsgBehavior) (ins : Option EmailInsight) (cats : List EmailCategory)
    (h : cats.any (fun c => excludedCategories.contains c.key) = true) :
    (draftStage cfg st env b ins cats).2 = [] := by
  have hskip : skipDraft cfg env cats = true := by
    unfold skipDraft
    rw [h]
    rfl
  unfold draftStage
  split
  · rename_i hcond
    rw [hskip] at hcond
    simp at hcond
  · rfl

theorem followUpStage_events (cfg : SeqConfig) (st : RepoState)
    (env : EmailEnvelope) (b : MsgBehavior) (ins : Option EmailInsight)
    (cats : List EmailCategory) :
    ∀ e ∈ (followUpStage cfg st env b ins cats).2,
      ∃ ts, e = Event.followUpsWrite env.uid ts ∧ b.plan = .ok (some ts) := by
  intro e he
  unfold followUpStage at he
  split at he
  · split at he
    · simp at he
    · split at he
      · rename_i ts hp
        simp at he
        exact ⟨ts, he, hp⟩
      · simp at he
      · simp at he
  · simp at he

/-- An excluded category set suppresses follow-up planning entirely. -/
theorem followUpStage_skip (cfg : SeqConfig) (st : RepoState)
    (env : EmailEnvelope) (b : MsgBehavior) (ins : Option EmailInsight)
    (cats : List EmailCategory)
    (h : cats.any (fun c => excludedCategories.contains c.key) = true) :
    (followUpStage cfg st env b ins cats).2 = [] := by
  have h' : ∃ x ∈ cats, x.key ∈ excludedCategories := by simpa using h
  unfold followUpStage
  split
  · simp [h']
  · rfl

/-- Every event emitted by the enrichment step is an enrichment write:
no persistence attempt, no checkpoint write, no AI call. -/
theorem enrich_events_kind (cfg : SeqConfig) (st : RepoState)
    (env : EmailEnvelope) (b : MsgBehavior) :
    ∀ e ∈ (enrichMessage cfg st env b).2, isEnrichEvent e = true := by
  intro e he
  simp only [enrichMessage, List.mem_append] at he
  rcases he with ((((h | h) | h) | h) | h)
  · obtain ⟨ins, rfl⟩ := insightStage_events cfg st env b e h
    rfl
  · rcases categoryStage_events cfg (insightStage cfg st env b).1 env b with
      ⟨hnil, -⟩ | ⟨cats, -, hev, -⟩
    · rw [hnil] at h
      exact absurd h (List.not_mem_nil e)
    · rw [hev] at h
      simp at h
      rw [h]
      rfl
  · obtain ⟨u, rfl⟩ := regenStage_events cfg _ b _ e h
    rfl
  · obtain ⟨d, rfl, -⟩ := draftStage_events cfg _ env b _ _ e h
    rfl
  · obtain ⟨ts, rfl, -⟩ := followUpStage_events cfg _ env b _ _ e h
    rfl

/-! ## Field-preservation lemmas per stage -/

theorem insightStage_follow_ups_eq (cfg : SeqConfig) (st : RepoState)
    (env : EmailEnvelope) (b : MsgBehavior) :
    (insightStage cfg st env b).1.follow_ups = st.follow_ups := by
  obtain ⟨l, h⟩ := insightStage_shape cfg st env b
  rw [h]

theorem categoryStage_follow_ups_eq (cfg : SeqConfig) (st : RepoState)
    (env : EmailEnvelope) (b : MsgBehavior) :
    (categoryStage cfg st env b).1.follow_ups = st.follow_ups := by
  obtain ⟨l, h⟩ := categoryStage_shape cfg st env b
  rw [h]

theorem regenStage_follow_ups_eq (cfg : SeqConfig) (st : RepoState)
    (b : MsgBehavior) (ins : Option EmailInsight) :
    (regenStage cfg st b ins).1.follow_ups = st.follow_ups := by
  obtain ⟨l, h⟩ := regenStage_shape cfg st b ins
  rw [h]

theorem draftStage_follow_ups_eq (cfg : SeqConfig) (st : RepoState)
    (env : EmailEnvelope) (b : MsgBehavior) (ins : Option EmailInsight)
    (cats : List EmailCategory) :
    (draftStage cfg st env b ins cats).1.follow_ups = st.follow_ups := by
  obtain ⟨l, h⟩ := draftStage_shape cfg st env b ins cats
  rw [h]

/-- Rows left in `follow_ups` by the follow-up stage: pre-existing rows,
or rows built from the planner's returned tasks for this envelope. -/
theorem followUpStage_rows (cfg : SeqConfig) (st : RepoState)
    (env : EmailEnvelope) (b : MsgBehavior) (ins : Option EmailInsight)
    (cats : List EmailCategory) :
    ∀ row ∈ (followUpStage cfg st env b ins cats).1.follow_ups,
      row ∈ st.follow_ups
      ∨ ∃ ts, b.plan = .ok (some ts) ∧ ∃ t ∈ ts,
          row = ⟨env.uid, t.action, t.due_at, t.status, t.created_at,
            t.completed_at⟩ := by
  intro row hrow
  unfold followUpStage at hrow
  split at hrow
  · split at hrow
    · exact Or.inl hrow
    · split at hrow
      · rename_i ts hp
        simp only [replace_follow_ups, List.mem_append, List.mem_filter,
          List.mem_map] at hrow
        rcases hrow with ⟨hmem, -⟩ | ⟨t, ht, rfl⟩
        · exact Or.inl hmem
        · exact Or.inr ⟨ts, hp, t, ht, rfl⟩
      · exact Or.inl hrow
      · exact Or.inl hrow
  · exact Or.inl hrow

/-- Rows left in `follow_ups` by the whole enrichment step. -/
theorem enrich_follow_up_rows (cfg : SeqConfig) (st : RepoState)
    (env : EmailEnvelope) (b : MsgBehavior) :
    ∀ row ∈ (enrichMessage cfg st env b).1.follow_ups,
      row ∈ st.follow_ups
      ∨ ∃ ts, b.plan = .ok (some ts) ∧ ∃ t ∈ ts,
          row = ⟨env.uid, t.action, t.due_at, t.status, t.created_at,
            t.completed_at⟩ := by
  intro row hrow
  simp only [enrichMessage] at hrow
  rcases followUpStage_rows cfg _ env b _ _ row hrow with hold | hnew
  · rw [draftStage_follow_ups_eq, regenStage_follow_ups_eq,
      categoryStage_follow_ups_eq, insightStage_follow_ups_eq] at hold
    exact Or.inl hold
  · exact Or.inr hnew

/-! ## C8: follow-up task statuses -/

/-- Rows added by a sequential run all carry the planner's task fields. -/
theorem seqLoop_follow_up_rows (cfg : SeqConfig) :
    ∀ (chunks : List (Nat × MsgBehavior)) (s : SeqCore),
    plansOpenB chunks = true →
    ∀ row ∈ (seqLoop cfg chunks s).1.repo.follow_ups,
      row ∈ s.repo.follow_ups
      ∨ (row.status = "open" ∧ row.completed_at = none) := by
  intro chunks
  induction chunks with
  | nil => intro s hplan row hrow; exact Or.inl hrow
  | cons ch rest ih =>
      intro s hplan row hrow
      obtain ⟨uid, b⟩ := ch
      have hsplit : (match b.plan with
          | .ok (some ts) =>
              ts.all (fun t => t.status == "open" && t.completed_at == none)
          | _ => true) = true ∧ plansOpenB rest = true := by
        have := hplan
        simp only [plansOpenB, List.all_cons, Bool.and_eq_true] at this
        exact ⟨this.1, this.2⟩
      rcases hpa : b.parse with e | env
      · simp only [seqLoop, hpa] at hrow
        exact Or.inl hrow
      · rcases hpo : persistOutcome b.persist_raises s.repo env with msg | repo1
        · simp only [seqLoop, hpa, hpo] at hrow
          rcases ih _ hsplit.2 row hrow with hold | hnew
          · exact Or.inl hold
          · exact Or.inr hnew
        · simp only [seqLoop, hpa, hpo] at hrow
          split at hrow
          · -- max_messages break: final repo is the checkpointed enriched repo
            have henr := enrich_follow_up_rows cfg repo1 env b row hrow
            rcases henr with hold | ⟨ts, hp, t, ht, rfl⟩
            · rw [persistOutcome_ok_eq hpo] at hold
              exact Or.inl hold
            · right
              have := hsplit.1
              rw [hp] at this
              simp only [List.all_eq_true, Bool.and_eq_true, beq_iff_eq] at this
              obtain ⟨h1, h2⟩ := this t ht
              exact ⟨h1, h2⟩
          · rcases ih _ hsplit.2 row hrow with hold | hnew
            · have henr := enrich_follow_up_rows cfg repo1 env b row hold
              rcases henr with hold2 | ⟨ts, hp, t, ht, rfl⟩
              · rw [persistOutcome_ok_eq hpo] at hold2
                exact Or.inl hold2
              · right
                have := hsplit.1
                rw [hp] at this
                simp only [List.all_eq_true, Bool.and_eq_true, beq_iff_eq] at this
                obtain ⟨h1, h2⟩ := this t ht
                exact ⟨h1, h2⟩
            · exact Or.inr hnew

theorem store_analysis_eq (cfg : OptConfig) (st : RepoState)
    (env : EmailEnvelope) (a : EmailAnalysis) :
    store_analysis cfg st env a = (st, [], some PyError.attributeError) := rfl

theorem storeLoop_state_eq (cfg : OptConfig) :
    ∀ (l : List (EmailEnvelope × EmailAnalysis)) (st : RepoState),
    (storeLoop cfg st l).1 = st := by
  intro l
  cases l with
  | nil => intro st; rfl
  | cons p rest =>
      intro st
      obtain ⟨env, a⟩ := p
      rw [storeLoop]
      rfl

theorem cacheCheckLoop_follow_ups (l : List (EmailEnvelope × Except Unit EmailAnalysis)) :
    ∀ (st : RepoState), (cacheCheckLoop st l).1.follow_ups = st.follow_ups := by
  induction l with
  | nil => intro st; rfl
  | cons p rest ih =>
      intro st
      obtain ⟨env, a⟩ := p
      rw [cacheCheckLoop]
      cases hfc : find_cached_analysis
          (update_content_hash st env.uid (compute_content_hash env))
          (compute_content_hash env) <;>
        simp [hfc, ih]
      <;> rfl

theorem cachedLoop_follow_ups (l : List (Nat × EmailInsight)) :
    ∀ (st : RepoState), (cachedLoop st l).1.follow_ups = st.follow_ups := by
  induction l with
  | nil => intro st; rfl
  | cons p rest ih =>
      intro st
      obtain ⟨uid, cached⟩ := p
      rw [cachedLoop]
      rcases hpi : persist_insight st _ with e | st1
      · rfl
      · have h1 := (persist_insight_ok_eq hpi).1
        simp only []
        rw [ih]
        rw [h1]
        rfl

theorem process_batch_follow_ups (cfg : OptConfig) (st : RepoState)
    (batch : List (EmailEnvelope × Except Unit EmailAnalysis)) :
    (process_batch cfg st batch).1.follow_ups = st.follow_ups := by
  simp only [process_batch]
  split
  · rfl
  · split
    · rw [storeLoop_state_eq, cacheCheckLoop_follow_ups]
    · rw [cachedLoop_follow_ups, storeLoop_state_eq, cacheCheckLoop_follow_ups]

/-- The batched orchestrator's loop never changes the `follow_ups`
table. -/
theorem optLoop_follow_ups (cfg : OptConfig) :
    ∀ (chunks : List (Nat × OptMsgBehavior)) (s : OptCore),
    (optLoop cfg chunks s).1.repo.follow_ups = s.repo.follow_ups := by
  intro chunks
  induction chunks with
  | nil => intro s; rfl
  | cons ch rest ih =>
      intro s
      obtain ⟨uid, b⟩ := ch
      rcases hpa : b.parse with e | env
      · simp only [optLoop, hpa]
      · rcases hpo : persistOutcome b.persist_raises s.repo env with msg | repo1
        · simp only [optLoop, hpa, hpo]
        · simp only [optLoop, hpa, hpo]
          have hrepo1 : repo1.follow_ups = s.repo.follow_ups := by
            rw [persistOutcome_ok_eq hpo]
          split
          · split
            · simp only [upsert_checkpoint, process_batch_follow_ups, hrepo1]
            · split
              · simp only [upsert_checkpoint, process_batch_follow_ups, hrepo1]
              · rw [ih]
                simp only [upsert_checkpoint, process_batch_follow_ups, hrepo1]
          · split
            · simp only [upsert_checkpoint, hrepo1]
            · rw [ih]
              simp only [upsert_checkpoint, hrepo1]

/-- The batched run never changes `follow_ups` at all (the
cache-miss store path raises before `replace_follow_ups`, and the cached
path writes only insights and categories). -/
theorem optimized_run_follow_ups (cfg : OptConfig)
    (chunks : List (Nat × OptMsgBehavior)) (st : RepoState) :
    (OptimizedMailFetcher.run cfg chunks st).repo.follow_ups = st.follow_ups := by
  simp only [OptimizedMailFetcher.run]
  split
  · split
    · simp only [optLoop_follow_ups]
    · split
      · simp only [process_batch_follow_ups, optLoop_follow_ups]
      · simp only [process_batch_follow_ups, optLoop_follow_ups]
  · simp only [optLoop_follow_ups]

/-! ## C4 support: the batched orchestrator writes no drafts or follow-ups -/

/-- Events that are neither draft writes nor follow-up writes. -/
def notDraftOrFollowUp : Event → Bool
  | .draftWrite _ => false
  | .followUpsWrite _ _ => false
  | _ => true

theorem storeLoop_events_nil (cfg : OptConfig) (st : RepoState) :
    ∀ (l : List (EmailEnvelope × EmailAnalysis)), (storeLoop cfg st l).2.1 = [] := by
  intro l
  cases l with
  | nil => rfl
  | cons p rest => rfl

theorem cachedLoop_events (l : List (Nat × EmailInsight)) :
    ∀ (st : RepoState) (e : Event), e ∈ (cachedLoop st l).2.1 →
      notDraftOrFollowUp e = true := by
  induction l with
  | nil => intro st e he; exact absurd he (List.not_mem_nil e)
  | cons p rest ih =>
      intro st e he
      obtain ⟨uid, cached⟩ := p
      rw [cachedLoop] at he
      rcases hpi : persist_insight st _ with err | st1
      · rw [hpi] at he
        exact absurd he (List.not_mem_nil e)
      · rw [hpi] at he
        simp only [List.mem_cons] at he
        rcases he with rfl | rfl | he
        · rfl
        · rfl
        · exact ih _ e he

theorem process_batch_events (cfg : OptConfig) (st : RepoState)
    (batch : List (EmailEnvelope × Except Unit EmailAnalysis)) :
    ∀ e ∈ (process_batch cfg st batch).2.1, notDraftOrFollowUp e = true := by
  intro e he
  simp only [process_batch] at he
  split at he
  · exact absurd he (List.not_mem_nil e)
  · split at he
    · rw [storeLoop_events_nil] at he
      simp only [List.append_nil, List.mem_map] at he
      obtain ⟨m, -, rfl⟩ := he
      rfl
    · rw [storeLoop_events_nil] at he
      simp only [List.append_nil, List.mem_append, List.mem_map] at he
      rcases he with ⟨m, -, rfl⟩ | he
      · rfl
      · exact cachedLoop_events _ _ e he

theorem optLoop_events (cfg : OptConfig) :
    ∀ (chunks : List (Nat × OptMsgBehavior)) (s : OptCore),
    ∀ e ∈ (optLoop cfg chunks s).2.1, notDraftOrFollowUp e = true := by
  intro chunks
  induction chunks with
  | nil => intro s e he; exact absurd he (List.not_mem_nil e)
  | cons ch rest ih =>
      intro s e he
      obtain ⟨uid, b⟩ := ch
      rcases hpa : b.parse with err | env
      · simp only [optLoop, hpa] at he
        exact absurd he (List.not_mem_nil e)
      · rcases hpo : persistOutcome b.persist_raises s.repo env with msg | repo1
        · simp only [optLoop, hpa, hpo, List.mem_singleton] at he
          rw [he]
          rfl
        · simp only [optLoop, hpa, hpo] at he
          split at he
          · split at he
            · simp only [List.mem_cons] at he
              rcases he with rfl | he
              · rfl
              · exact process_batch_events cfg repo1 _ e he
            · split at he
              · simp at he
                rcases he with rfl | he | rfl
                · rfl
                · exact process_batch_events cfg repo1 _ e he
                · rfl
              · simp at he
                rcases he with rfl | he | rfl | he
                · rfl
                · exact process_batch_events cfg repo1 _ e he
                · rfl
                · exact ih _ e he
          · split at he
            · simp at he
              rcases he with rfl | rfl
              · rfl
              · rfl
            · simp at he
              rcases he with rfl | rfl | he
              · rfl
              · rfl
              · exact ih _ e he

/-- The batched run's trace contains no draft write and no follow-up
write: `_store_analysis` raises before reaching either, and the cached
path writes only insights and categories. -/
theorem optimized_run_events (cfg : OptConfig)
    (chunks : List (Nat × OptMsgBehavior)) (st : RepoState) :
    ∀ e ∈ (OptimizedMailFetcher.run cfg chunks st).trace,
      notDraftOrFollowUp e = true := by
  intro e he
  simp only [OptimizedMailFetcher.run] at he
  split at he
  · split at he
    · exact optLoop_events cfg chunks _ e he
    · split at he
      · simp only [List.mem_append] at he
        rcases he with he | he
        · exact optLoop_events cfg chunks _ e he
        · exact process_batch_events cfg _ _ e he
      · simp only [List.mem_append] at he
        rcases he with he | he
        · exact optLoop_events cfg chunks _ e he
        · exact process_batch_events cfg _ _ e he
  · exact optLoop_events cfg chunks _ e he

/-! ## C4 support: the sequential orchestrator's exclusion rule -/

theorem uidConsistent_head {uid : Nat} {b : MsgBehavior}
    {rest : List (Nat × MsgBehavior)}
    (h : uidConsistentB ((uid, b) :: rest) = true)
    {env : EmailEnvelope} (hpa : b.parse = .ok env) :
    env.uid = uid ∧ uidConsistentB rest = true := by
  simp only [uidConsistentB, List.all_cons, Bool.and_eq_true] at h
  refine ⟨?_, h.2⟩
  have := h.1
  rw [hpa] at this
  simpa using this

theorem draftAligned_head {uid : Nat} {b : MsgBehavior}
    {rest : List (Nat × MsgBehavior)}
    (h : draftAlignedB ((uid, b) :: rest) = true)
    {env : EmailEnvelope} (hpa : b.parse = .ok env) :
    (∀ d, b.draft = .ok (some d) → d.email_uid = env.uid)
    ∧ draftAlignedB rest = true := by
  simp only [draftAlignedB, List.all_cons, Bool.and_eq_true] at h
  refine ⟨?_, h.2⟩
  intro d hd
  have := h.1
  rw [hpa, hd] at this
  simpa using this

/-- A category write inside one enrichment step names the envelope's UID
and carries exactly the category stage's output. -/
theorem enrich_categories_event (cfg : SeqConfig) (st : RepoState)
    (env : EmailEnvelope) (b : MsgBehavior) (u : Nat)
    (cats : List EmailCategory)
    (hmem : Event.categoriesWrite u cats ∈ (enrichMessage cfg st env b).2) :
    u = env.uid
    ∧ (categoryStage cfg (insightStage cfg st env b).1 env b).2.2 = cats := by
  simp only [enrichMessage, List.mem_append] at hmem
  rcases hmem with ((((h | h) | h) | h) | h)
  · obtain ⟨ins, heq⟩ := insightStage_events cfg st env b _ h
    simp at heq
  · rcases categoryStage_events cfg (insightStage cfg st env b).1 env b with
      ⟨hnil, -⟩ | ⟨cats0, -, hev, hval⟩
    · rw [hnil] at h
      exact absurd h (List.not_mem_nil _)
    · rw [hev] at h
      simp only [List.mem_singleton] at h
      injection h with h1 h2
      exact ⟨h1, by rw [hval, h2]⟩
  · obtain ⟨ins, heq⟩ := regenStage_events cfg _ b _ _ h
    simp at heq
  · obtain ⟨d, heq, -⟩ := draftStage_events cfg _ env b _ _ _ h
    simp at heq
  · obtain ⟨ts, heq, -⟩ := followUpStage_events cfg _ env b _ _ _ h
    simp at heq

/-- If the category stage assigned an excluded category, the enrichment
step emits no draft write and no follow-up write. -/
theorem enrich_excluded_no_writes (cfg : SeqConfig) (st : RepoState)
    (env : EmailEnvelope) (b : MsgBehavior)
    (hexc : ((categoryStage cfg (insightStage cfg st env b).1 env b).2.2).any
        (fun c => excludedCategories.contains c.key) = true) :
    ∀ e ∈ (enrichMessage cfg st env b).2,
      (∀ d, e ≠ Event.draftWrite d) ∧ (∀ v ts, e ≠ Event.followUpsWrite v ts) := by
  intro e he
  simp only [enrichMessage, List.mem_append] at he
  rcases he with ((((h | h) | h) | h) | h)
  · obtain ⟨ins, rfl⟩ := insightStage_events cfg st env b _ h
    exact ⟨fun d => by simp, fun v ts => by simp⟩
  · rcases categoryStage_events cfg (insightStage cfg st env b).1 env b with
      ⟨hnil, -⟩ | ⟨cats0, -, hev, -⟩
    · rw [hnil] at h
      exact absurd h (List.not_mem_nil _)
    · rw [hev] at h
      simp only [List.mem_singleton] at h
      subst h
      exact ⟨fun d => by simp, fun v ts => by simp⟩
  · obtain ⟨ins, rfl⟩ := regenStage_events cfg _ b _ _ h
    exact ⟨fun d => by simp, fun v ts => by simp⟩
  · rw [draftStage_skip _ _ _ _ _ _ hexc] at h
    exact absurd h (List.not_mem_nil _)
  · rw [followUpStage_skip _ _ _ _ _ _ hexc] at h
    exact absurd h (List.not_mem_nil _)

/-- Every enrichment event of one message is scoped to that message's
envelope UID (drafts under the drafting-service contract). -/
theorem enrich_event_scope (cfg : SeqConfig) (st : RepoState)
    (env : EmailEnvelope) (b : MsgBehavior)
    (halign : ∀ d, b.draft = .ok (some d) → d.email_uid = env.uid) :
    ∀ e ∈ (enrichMessage cfg st env b).2,
      (∀ u cats, e = Event.categoriesWrite u cats → u = env.uid)
      ∧ (∀ v ts, e = Event.followUpsWrite v ts → v = env.uid)
      ∧ (∀ d, e = Event.draftWrite d → d.email_uid = env.uid) := by
  intro e he
  simp only [enrichMessage, List.mem_append] at he
  rcases he with ((((h | h) | h) | h) | h)
  · obtain ⟨ins, rfl⟩ := insightStage_events cfg st env b _ h
    exact ⟨fun u cats heq => by simp at heq, fun v ts heq => by simp at heq,
      fun d heq => by simp at heq⟩
  · rcases categoryStage_events cfg (insightStage cfg st env b).1 env b with
      ⟨hnil, -⟩ | ⟨cats0, -, hev, -⟩
    · rw [hnil] at h
      exact absurd h (List.not_mem_nil _)
    · rw [hev] at h
      simp only [List.mem_singleton] at h
      subst h
      refine ⟨?_, ?_, ?_⟩
      · intro u cats heq
        injection heq with h1 h2
        exact h1.symm
      · intro v ts heq
        simp at heq
      · intro d heq
        simp at heq
  · obtain ⟨ins, rfl⟩ := regenStage_events cfg _ b _ _ h
    exact ⟨fun u cats heq => by simp at heq, fun v ts heq => by simp at heq,
      fun d heq => by simp at heq⟩
  · obtain ⟨d, rfl, hd⟩ := draftStage_events cfg _ env b _ _ _ h
    refine ⟨fun u cats heq => by simp at heq, fun v ts heq => by simp at heq, ?_⟩
    intro d2 heq
    injection heq with h1
    rw [← h1]
    exact halign d hd
  · obtain ⟨ts, rfl, -⟩ := followUpStage_events cfg _ env b _ _ _ h
    refine ⟨fun u cats heq => by simp at heq, ?_, fun d heq => by simp at heq⟩
    intro v ts2 heq
    injection heq with h1 h2
    exact h1.symm

/-- Every category, follow-up or draft write of a sequential loop names a
UID drawn from the processed chunks. -/
theorem seqLoop_event_scope (cfg : SeqConfig) :
    ∀ (chunks : List (Nat × MsgBehavior)) (s : SeqCore),
    uidConsistentB chunks = true → draftAlignedB chunks = true →
    ∀ e ∈ (seqLoop cfg chunks s).2.1,
      (∀ u cats, e = Event.categoriesWrite u cats → u ∈ chunks.map (·.1))
      ∧ (∀ v ts, e = Event.followUpsWrite v ts → v ∈ chunks.map (·.1))
      ∧ (∀ d, e = Event.draftWrite d → d.email_uid ∈ chunks.map (·.1)) := by
  intro chunks
  induction chunks with
  | nil => intro s hcons halign e he; exact absurd he (List.not_mem_nil e)
  | cons ch rest ih =>
      intro s hcons halign e he
      obtain ⟨uid, b⟩ := ch
      rcases hpa : b.parse with err | env
      · simp only [seqLoop, hpa] at he
        exact absurd he (List.not_mem_nil e)
      · obtain ⟨huid, hcons2⟩ := uidConsistent_head hcons hpa
        obtain ⟨hal, halign2⟩ := draftAligned_head halign hpa
        rcases hpo : persistOutcome b.persist_raises s.repo env with msg | repo1
        · simp only [seqLoop, hpa, hpo, List.mem_cons] at he
          rcases he with rfl | rfl | he
          · exact ⟨fun u cats heq => by simp at heq,
              fun v ts heq => by simp at heq, fun d heq => by simp at heq⟩
          · exact ⟨fun u cats heq => by simp at heq,
              fun v ts heq => by simp at heq, fun d heq => by simp at heq⟩
          · obtain ⟨s1, s2, s3⟩ := ih _ hcons2 halign2 e he
            exact ⟨fun u cats heq => List.mem_cons_of_mem _ (s1 u cats heq),
              fun v ts heq => List.mem_cons_of_mem _ (s2 v ts heq),
              fun d heq => List.mem_cons_of_mem _ (s3 d heq)⟩
        · simp only [seqLoop, hpa, hpo] at he
          have hscope := enrich_event_scope cfg repo1 env b hal
          split at he
          · simp only [List.cons_append, List.mem_cons, List.mem_append,
              List.mem_singleton, List.mem_nil_iff, or_false] at he
            rcases he with rfl | he | rfl
            · exact ⟨fun u cats heq => by simp at heq,
                fun v ts heq => by simp at heq, fun d heq => by simp at heq⟩
            · obtain ⟨s1, s2, s3⟩ := hscope e he
              refine ⟨?_, ?_, ?_⟩
              · intro u cats heq
                rw [s1 u cats heq, huid]
                exact List.mem_cons_self _ _
              · intro v ts heq
                rw [s2 v ts heq, huid]
                exact List.mem_cons_self _ _
              · intro d heq
                rw [s3 d heq, huid]
                exact List.mem_cons_self _ _
            · exact ⟨fun u cats heq => by simp at heq,
                fun v ts heq => by simp at heq, fun d heq => by simp at heq⟩
          · simp only [List.cons_append, List.mem_cons, List.mem_append,
              List.mem_singleton, List.mem_nil_iff, or_false] at he
            rcases he with rfl | (he | rfl) | he
            · exact ⟨fun u cats heq => by simp at heq,
                fun v ts heq => by simp at heq, fun d heq => by simp at heq⟩
            · obtain ⟨s1, s2, s3⟩ := hscope e he
              refine ⟨?_, ?_, ?_⟩
              · intro u cats heq
                rw [s1 u cats heq, huid]
                exact List.mem_cons_self _ _
              · intro v ts heq
                rw [s2 v ts heq, huid]
                exact List.mem_cons_self _ _
              · intro d heq
                rw [s3 d heq, huid]
                exact List.mem_cons_self _ _
            · exact ⟨fun u cats heq => by simp at heq,
                fun v ts heq => by simp at heq, fun d heq => by simp at heq⟩
            · obtain ⟨s1, s2, s3⟩ := ih _ hcons2 halign2 e he
              exact ⟨fun u cats heq => List.mem_cons_of_mem _ (s1 u cats heq),
                fun v ts heq => List.mem_cons_of_mem _ (s2 v ts heq),
                fun d heq => List.mem_cons_of_mem _ (s3 d heq)⟩

/-- The exclusion rule along a whole sequential loop: a category write
with an excluded set forbids drafts and follow-ups for that UID anywhere
in the run's trace. -/
theorem seqLoop_excluded (cfg : SeqConfig) :
    ∀ (chunks : List (Nat × MsgBehavior)) (s : SeqCore),
    (chunks.map (·.1)).Pairwise (· < ·) →
    uidConsistentB chunks = true → draftAlignedB chunks = true →
    ∀ (u : Nat) (cats : List EmailCategory),
      Event.categoriesWrite u cats ∈ (seqLoop cfg chunks s).2.1 →
      cats.any (fun c => excludedCategories.contains c.key) = true →
      (∀ d, Event.draftWrite d ∈ (seqLoop cfg chunks s).2.1 → d.email_uid ≠ u)
      ∧ (∀ ts, Event.followUpsWrite u ts ∉ (seqLoop cfg chunks s).2.1) := by
  intro chunks
  induction chunks with
  | nil =>
      intro s hasc hcons halign u cats hmem hexc
      exact absurd hmem (List.not_mem_nil _)
  | cons ch rest ih =>
      intro s hasc hcons halign u cats hmem hexc
      obtain ⟨uid, b⟩ := ch
      simp only [List.map_cons] at hasc
      have hpc := List.pairwise_cons.mp hasc
      rcases hpa : b.parse with err | env
      · rw [seqLoop, hpa] at hmem
        exact absurd hmem (List.not_mem_nil _)
      · obtain ⟨huid, hcons2⟩ := uidConsistent_head hcons hpa
        obtain ⟨hal, halign2⟩ := draftAligned_head halign hpa
        rcases hpo : persistOutcome b.persist_raises s.repo env with msg | repo1
        · simp [seqLoop, hpa, hpo] at hmem
          have hIH := ih _ hpc.2 hcons2 halign2 u cats hmem hexc
          constructor
          · intro d hd
            simp [seqLoop, hpa, hpo] at hd
            exact hIH.1 d hd
          · intro ts hts
            simp [seqLoop, hpa, hpo] at hts
            exact hIH.2 ts hts
        · by_cases hmax : maxReached cfg (s.processed + 1) = true
          · simp [seqLoop, hpa, hpo, hmax] at hmem
            obtain ⟨hcu, hcv⟩ := enrich_categories_event cfg repo1 env b u cats hmem
            have hexc2 : ((categoryStage cfg (insightStage cfg repo1 env b).1 env
                b).2.2).any (fun c => excludedCategories.contains c.key) = true := by
              rw [hcv]
              exact hexc
            have hnw := enrich_excluded_no_writes cfg repo1 env b hexc2
            constructor
            · intro d hd
              simp [seqLoop, hpa, hpo, hmax] at hd
              exact absurd rfl ((hnw _ hd).1 d)
            · intro ts hts
              simp [seqLoop, hpa, hpo, hmax] at hts
              exact absurd rfl ((hnw _ hts).2 u ts)
          · simp [seqLoop, hpa, hpo, hmax] at hmem
            rcases hmem with hmem | hmem
            · obtain ⟨hcu, hcv⟩ := enrich_categories_event cfg repo1 env b u cats hmem
              have hexc2 : ((categoryStage cfg (insightStage cfg repo1 env b).1 env
                  b).2.2).any (fun c => excludedCategories.contains c.key) = true := by
                rw [hcv]
                exact hexc
              have hnw := enrich_excluded_no_writes cfg repo1 env b hexc2
              constructor
              · intro d hd
                simp [seqLoop, hpa, hpo, hmax] at hd
                rcases hd with hd | hd
                · exact absurd rfl ((hnw _ hd).1 d)
                · have hu : d.email_uid ∈ rest.map (·.1) :=
                    (seqLoop_event_scope cfg rest _ hcons2 halign2 _ hd).2.2 d rfl
                  intro hequ
                  rw [hequ, hcu, huid] at hu
                  exact absurd (hpc.1 _ hu) (lt_irrefl uid)
              · intro ts hts
                simp [seqLoop, hpa, hpo, hmax] at hts
                rcases hts with hts | hts
                · exact absurd rfl ((hnw _ hts).2 u ts)
                · have hu : u ∈ rest.map (·.1) :=
                    (seqLoop_event_scope cfg rest _ hcons2 halign2 _ hts).2.1 u ts rfl
                  rw [hcu, huid] at hu
                  exact absurd (hpc.1 _ hu) (lt_irrefl uid)
            · have hIH := ih _ hpc.2 hcons2 halign2 u cats hmem hexc
              have hu : u ∈ rest.map (·.1) :=
                (seqLoop_event_scope cfg rest _ hcons2 halign2 _ hmem).1 u cats rfl
              have hltu : uid < u := hpc.1 _ hu
              constructor
              · intro d hd
                simp [seqLoop, hpa, hpo, hmax] at hd
                rcases hd with hd | hd
                · have hde : d.email_uid = env.uid :=
                    (enrich_event_scope cfg repo1 env b hal _ hd).2.2 d rfl
                  rw [hde, huid]
                  exact Nat.ne_of_lt hltu
                · exact hIH.1 d hd
              · intro ts hts
                simp [seqLoop, hpa, hpo, hmax] at hts
                rcases hts with hts | hts
                · have hue : u = env.uid :=
                    (enrich_event_scope cfg repo1 env b hal _ hts).2.1 u ts rfl
                  rw [hue, huid] at hltu
                  exact absurd hltu (lt_irrefl uid)
                · exact hIH.2 ts hts

/-! ## C5 support: referential integrity of enrichment rows -/

theorem any_upsertEmailRow (l : List EmailRow) (e : EmailEnvelope) (u : Nat) :
    ((upsertEmailRow l e).any (fun r => r.env.uid == u))
      = (l.any (fun r => r.env.uid == u) || (e.uid == u)) := by
  induction l with
  | nil => simp [upsertEmailRow]
  | cons r rs ih =>
      by_cases h : (r.env.uid == e.uid) = true
      · rw [beq_iff_eq] at h
        simp only [upsertEmailRow, h]
        simp only [beq_self_eq_true, if_true, List.any_cons]
        cases he : (e.uid == u) <;> cases hrs : rs.any (fun r => r.env.uid == u) <;>
          simp_all
      · simp only [upsertEmailRow, if_neg h, List.any_cons, ih]
        cases hr : (r.env.uid == u) <;>
          cases hrs : rs.any (fun r => r.env.uid == u) <;>
          cases he : (e.uid == u) <;> simp [hr, hrs, he]

theorem hasEmail_upsert (st : RepoState) (e : EmailEnvelope) (u : Nat) :
    hasEmail { st with emails := upsertEmailRow st.emails e } u
      = (hasEmail st u || (e.uid == u)) :=
  any_upsertEmailRow st.emails e u

theorem hasEmail_update_content_hash (st : RepoState) (uid : Nat) (h : String)
    (v : Nat) :
    hasEmail (update_content_hash st uid h) v = hasEmail st v := by
  show ((st.emails.map (fun r =>
      if r.env.uid == uid then { r with content_hash := some h } else r)).any
        (fun r => r.env.uid == v)) = st.emails.any (fun r => r.env.uid == v)
  induction st.emails with
  | nil => rfl
  | cons r rs ih =>
      simp only [List.map_cons, List.any_cons]
      rw [ih]
      by_cases hr : (r.env.uid == uid) = true
      · rw [if_pos hr]
      · rw [if_neg hr]

theorem mem_upsertInsightRow {l : List EmailInsight} {i j : EmailInsight}
    (h : j ∈ upsertInsightRow l i) : j ∈ l ∨ j = i := by
  induction l with
  | nil =>
      simp only [upsertInsightRow, List.mem_singleton] at h
      exact Or.inr h
  | cons r rs ih =>
      by_cases hr : (r.email_uid == i.email_uid) = true
      · simp only [upsertInsightRow, if_pos hr, List.mem_cons] at h
        rcases h with rfl | h
        · exact Or.inr rfl
        · exact Or.inl (List.mem_cons_of_mem _ h)
      · simp only [upsertInsightRow, if_neg hr, List.mem_cons] at h
        rcases h with rfl | h
        · exact Or.inl (List.mem_cons_self _ _)
        · rcases ih h with h2 | h2
          · exact Or.inl (List.mem_cons_of_mem _ h2)
          · exact Or.inr h2

theorem RI_persist_email {st st' : RepoState} {e : EmailEnvelope} {br : Bool}
    (h : persistOutcome br st e = .ok st' ∨ persist_email st e = .ok st')
    (hri : ReferentialIntegrity st) : ReferentialIntegrity st' := by
  have heq : st' = { st with emails := upsertEmailRow st.emails e } := by
    rcases h with h | h
    · exact persistOutcome_ok_eq h
    · exact persist_email_ok_eq h
  subst heq
  obtain ⟨h1, h2, h3, h4⟩ := hri
  refine ⟨?_, ?_, ?_, ?_⟩ <;> intro x hx <;> rw [hasEmail_upsert]
  · rw [h1 x hx]
    rfl
  · rw [h2 x hx]
    rfl
  · rw [h3 x hx]
    rfl
  · rw [h4 x hx]
    rfl

theorem RI_persist_insight {st st' : RepoState} {i : EmailInsight}
    (h : persist_insight st i = .ok st')
    (hri : ReferentialIntegrity st) : ReferentialIntegrity st' := by
  obtain ⟨heq, hhe⟩ := persist_insight_ok_eq h
  subst heq
  obtain ⟨h1, h2, h3, h4⟩ := hri
  refine ⟨?_, h2, h3, h4⟩
  intro x hx
  rcases mem_upsertInsightRow hx with hmem | rfl
  · exact h1 x hmem
  · exact hhe

theorem RI_replace_categories {st : RepoState} {u : Nat}
    {cats : List EmailCategory} (hri : ReferentialIntegrity st)
    (hu : hasEmail st u = true) :
    ReferentialIntegrity (replace_categories st u cats) := by
  obtain ⟨h1, h2, h3, h4⟩ := hri
  refine ⟨h1, ?_, h3, h4⟩
  intro x hx
  simp only [replace_categories, List.mem_append, List.mem_filter,
    List.mem_map] at hx
  rcases hx with ⟨hmem, -⟩ | ⟨c, -, rfl⟩
  · exact h2 x hmem
  · exact hu

theorem RI_replace_follow_ups {st : RepoState} {u : Nat}
    {tasks : List FollowUpTask} (hri : ReferentialIntegrity st)
    (hu : hasEmail st u = true) :
    ReferentialIntegrity (replace_follow_ups st u tasks) := by
  obtain ⟨h1, h2, h3, h4⟩ := hri
  refine ⟨h1, h2, ?_, h4⟩
  intro x hx
  simp only [replace_follow_ups, List.mem_append, List.mem_filter,
    List.mem_map] at hx
  rcases hx with ⟨hmem, -⟩ | ⟨t, -, rfl⟩
  · exact h3 x hmem
  · exact hu

theorem RI_persist_draft {st : RepoState} {d : DraftRecord}
    (hri : ReferentialIntegrity st) (hu : hasEmail st d.email_uid = true) :
    ReferentialIntegrity (persist_draft st d) := by
  obtain ⟨h1, h2, h3, h4⟩ := hri
  refine ⟨h1, h2, h3, ?_⟩
  intro x hx
  simp only [persist_draft, List.mem_append, List.mem_singleton] at hx
  rcases hx with hmem | rfl
  · exact h4 x hmem
  · exact hu

theorem RI_update_content_hash {st : RepoState} {u : Nat} {h : String}
    (hri : ReferentialIntegrity st) :
    ReferentialIntegrity (update_content_hash st u h) := by
  obtain ⟨h1, h2, h3, h4⟩ := hri
  refine ⟨?_, ?_, ?_, ?_⟩ <;> intro x hx <;>
    rw [hasEmail_update_content_hash]
  · exact h1 x hx
  · exact h2 x hx
  · exact h3 x hx
  · exact h4 x hx

theorem RI_upsert_checkpoint {st : RepoState} {cp : SyncCheckpoint}
    (hri : ReferentialIntegrity st) :
    ReferentialIntegrity (upsert_checkpoint st cp) := hri

/-- Attempting to persist an insight for a UID with no stored email row
is rejected with the `ValueError` and performs no write. -/
theorem persist_insight_rejects {st : RepoState} {i : EmailInsight}
    (h : hasEmail st i.email_uid = false) :
    persist_insight st i
      = .error "Email UID must be persisted before its insight" := by
  unfold persist_insight
  rw [h]
  rfl

theorem RI_insightFresh (cfg : SeqConfig) {st : RepoState} (b : MsgBehavior)
    (hri : ReferentialIntegrity st) :
    ReferentialIntegrity (insightFresh cfg st b).1 := by
  cases hsvc : cfg.has_insight_service with
  | false =>
      have h : (insightFresh cfg st b).1 = st := by simp [insightFresh, hsvc]
      rw [h]
      exact hri
  | true =>
      rcases hi : b.insight1 with e | ins
      · have h : (insightFresh cfg st b).1 = st := by simp [insightFresh, hsvc, hi]
        rw [h]
        exact hri
      · rcases ins with _ | ins
        · have h : (insightFresh cfg st b).1 = st := by
            simp [insightFresh, hsvc, hi]
          rw [h]
          exact hri
        · rcases hpi : persist_insight st ins with e | st2
          · have h : (insightFresh cfg st b).1 = st := by
              simp [insightFresh, hsvc, hi, hpi]
            rw [h]
            exact hri
          · have h : (insightFresh cfg st b).1 = st2 := by
              simp [insightFresh, hsvc, hi, hpi]
            rw [h]
            exact RI_persist_insight hpi hri

theorem RI_insightStage (cfg : SeqConfig) {st : RepoState} (env : EmailEnvelope)
    (b : MsgBehavior) (hri : ReferentialIntegrity st) :
    ReferentialIntegrity (insightStage cfg st env b).1 := by
  have h2 : (insightStage cfg st env b).1 = (insightFresh cfg st b).1 := by
    unfold insightStage
    cases hcase : (insightFresh cfg st b).2.2 <;> simp [hcase]
  rw [h2]
  exact RI_insightFresh cfg b hri

theorem RI_categoryStage (cfg : SeqConfig) {st : RepoState} (env : EmailEnvelope)
    (b : MsgBehavior) (hri : ReferentialIntegrity st)
    (hu : hasEmail st env.uid = true) :
    ReferentialIntegrity (categoryStage cfg st env b).1 := by
  cases hsvc : cfg.has_category_service with
  | false =>
      have h : (categoryStage cfg st env b).1 = st := by simp [categoryStage, hsvc]
      rw [h]
      exact hri
  | true =>
      rcases hc : b.categorize with e | cats
      · have h : (categoryStage cfg st env b).1 = st := by
          simp [categoryStage, hsvc, hc]
        rw [h]
        exact hri
      · have h : (categoryStage cfg st env b).1 = replace_categories st env.uid cats := by
          simp [categoryStage, hsvc, hc]
        rw [h]
        exact RI_replace_categories hri hu

theorem RI_regenStage (cfg : SeqConfig) {st : RepoState} (b : MsgBehavior)
    (ins : Option EmailInsight) (hri : ReferentialIntegrity st) :
    ReferentialIntegrity (regenStage cfg st b ins).1 := by
  by_cases hcond : (ins.isSome && cfg.has_insight_service) = true
  · rcases hi : b.insight2 with e | u
    · have h : (regenStage cfg st b ins).1 = st := by simp [regenStage, hcond, hi]
      rw [h]
      exact hri
    · rcases u with _ | u
      · have h : (regenStage cfg st b ins).1 = st := by simp [regenStage, hcond, hi]
        rw [h]
        exact hri
      · rcases hpi : persist_insight st u with e | st2
        · have h : (regenStage cfg st b ins).1 = st := by
            simp [regenStage, hcond, hi, hpi]
          rw [h]
          exact hri
        · have h : (regenStage cfg st b ins).1 = st2 := by
            simp [regenStage, hcond, hi, hpi]
          rw [h]
          exact RI_persist_insight hpi hri
  · have h : (regenStage cfg st b ins).1 = st := by simp [regenStage, hcond]
    rw [h]
    exact hri

theorem RI_draftStage (cfg : SeqConfig) {st : RepoState} (env : EmailEnvelope)
    (b : MsgBehavior) (ins : Option EmailInsight) (cats : List EmailCategory)
    (hri : ReferentialIntegrity st) (hu : hasEmail st env.uid = true)
    (hd : ∀ d, b.draft = Except.ok (some d) → d.email_uid = env.uid) :
    ReferentialIntegrity (draftStage cfg st env b ins cats).1 := by
  by_cases hcond : (cfg.has_drafting_service && ins.isSome && !(skipDraft cfg env cats))
      = true
  · rcases hdr : b.draft with e | d
    · have h : (draftStage cfg st env b ins cats).1 = st := by
        simp [draftStage, hcond, hdr]
      rw [h]
      exact hri
    · rcases d with _ | d
      · have h : (draftStage cfg st env b ins cats).1 = st := by
          simp [draftStage, hcond, hdr]
        rw [h]
        exact hri
      · have h : (draftStage cfg st env b ins cats).1 = persist_draft st d := by
          simp [draftStage, hcond, hdr]
        rw [h]
        refine RI_persist_draft hri ?_
        rw [hd d hdr]
        exact hu
  · have h : (draftStage cfg st env b ins cats).1 = st := by simp [draftStage, hcond]
    rw [h]
    exact hri

theorem RI_followUpStage (cfg : SeqConfig) {st : RepoState} (env : EmailEnvelope)
    (b : MsgBehavior) (ins : Option EmailInsight) (cats : List EmailCategory)
    (hri : ReferentialIntegrity st) (hu : hasEmail st env.uid = true) :
    ReferentialIntegrity (followUpStage cfg st env b ins cats).1 := by
  by_cases hcond : (cfg.has_follow_up_planner && ins.isSome) = true
  · by_cases hskip : (cats.any (fun c => excludedCategories.contains c.key)) = true
    · have hskip2 : ∃ x ∈ cats, x.key ∈ excludedCategories := by simpa using hskip
      have h : (followUpStage cfg st env b ins cats).1 = st := by
        simp [followUpStage, hcond, hskip2]
      rw [h]
      exact hri
    · have hskip2 : ¬∃ x ∈ cats, x.key ∈ excludedCategories := by simpa using hskip
      rcases hp : b.plan with e | ts
      · have h : (followUpStage cfg st env b ins cats).1 = st := by
          simp [followUpStage, hcond, hskip2, hp]
        rw [h]
        exact hri
      · rcases ts with _ | ts
        · have h : (followUpStage cfg st env b ins cats).1 = st := by
            simp [followUpStage, hcond, hskip2, hp]
          rw [h]
          exact hri
        · have h : (followUpStage cfg st env b ins cats).1
              = replace_follow_ups st env.uid ts := by
            simp [followUpStage, hcond, hskip2, hp]
          rw [h]
          exact RI_replace_follow_ups hri hu
  · have h : (followUpStage cfg st env b ins cats).1 = st := by
      simp [followUpStage, hcond]
    rw [h]
    exact hri

theorem RI_enrichMessage (cfg : SeqConfig) {st : RepoState} (env : EmailEnvelope)
    (b : MsgBehavior) (hri : ReferentialIntegrity st)
    (hu : hasEmail st env.uid = true)
    (hd : ∀ d, b.draft = Except.ok (some d) → d.email_uid = env.uid) :
    ReferentialIntegrity (enrichMessage cfg st env b).1 := by
  obtain ⟨l1, h1⟩ := insightStage_shape cfg st env b
  have hri1 := RI_insightStage cfg env b hri
  have hu1 : hasEmail (insightStage cfg st env b).1 env.uid = true := by
    rw [h1]
    exact hu
  obtain ⟨l2, h2⟩ := categoryStage_shape cfg (insightStage cfg st env b).1 env b
  have hri2 := RI_categoryStage cfg env b hri1 hu1
  have hu2 : hasEmail (categoryStage cfg (insightStage cfg st env b).1 env b).1
      env.uid = true := by
    rw [h2]
    exact hu1
  obtain ⟨l3, h3⟩ := regenStage_shape cfg
      (categoryStage cfg (insightStage cfg st env b).1 env b).1 b
      (insightStage cfg st env b).2.2
  have hri3 := RI_regenStage cfg b (insightStage cfg st env b).2.2 hri2
  have hu3 : hasEmail (regenStage cfg
      (categoryStage cfg (insightStage cfg st env b).1 env b).1 b
      (insightStage cfg st env b).2.2).1 env.uid = true := by
    rw [h3]
    exact hu2
  obtain ⟨l4, h4⟩ := draftStage_shape cfg
      (regenStage cfg (categoryStage cfg (insightStage cfg st env b).1 env b).1 b
        (insightStage cfg st env b).2.2).1 env b
      (regenStage cfg (categoryStage cfg (insightStage cfg st env b).1 env b).1 b
        (insightStage cfg st env b).2.2).2.2
      (categoryStage cfg (insightStage cfg st env b).1 env b).2.2
  have hri4 := RI_draftStage cfg env b
      (regenStage cfg (categoryStage cfg (insightStage cfg st env b).1 env b).1 b
        (insightStage cfg st env b).2.2).2.2
      (categoryStage cfg (insightStage cfg st env b).1 env b).2.2 hri3 hu3 hd
  have hu4 : hasEmail (draftStage cfg
      (regenStage cfg (categoryStage cfg (insightStage cfg st env b).1 env b).1 b
        (insightStage cfg st env b).2.2).1 env b
      (regenStage cfg (categoryStage cfg (insightStage cfg st env b).1 env b).1 b
        (insightStage cfg st env b).2.2).2.2
      (categoryStage cfg (insightStage cfg st env b).1 env b).2.2).1
      env.uid = true := by
    rw [h4]
    exact hu3
  have hri5 := RI_followUpStage cfg env b
      (regenStage cfg (categoryStage cfg (insightStage cfg st env b).1 env b).1 b
        (insightStage cfg st env b).2.2).2.2
      (categoryStage cfg (insightStage cfg st env b).1 env b).2.2 hri4 hu4
  simp only [enrichMessage]
  exact hri5

theorem draftAlignedB_cons {p : Nat × MsgBehavior} {rest : List (Nat × MsgBehavior)}
    (h : draftAlignedB (p :: rest) = true) :
    (match p.2.parse, p.2.draft with
     | .ok env, .ok (some d) => d.email_uid == env.uid
     | _, _ => true) = true ∧ draftAlignedB rest = true := by
  have h2 : ((match p.2.parse, p.2.draft with
      | .ok env, .ok (some d) => d.email_uid == env.uid
      | _, _ => true)
      && rest.all (fun p => match p.2.parse, p.2.draft with
        | .ok env, .ok (some d) => d.email_uid == env.uid
        | _, _ => true)) = true := h
  exact And.imp id id (Bool.and_eq_true_iff.mp h2)

theorem seqLoop_RI (cfg : SeqConfig) :
    ∀ (chunks : List (Nat × MsgBehavior)) (s : SeqCore),
    draftAlignedB chunks = true →
    ReferentialIntegrity s.repo →
    ReferentialIntegrity (seqLoop cfg chunks s).1.repo := by
  intro chunks
  induction chunks with
  | nil => intro s _ hri; exact hri
  | cons p rest ih =>
      intro s hda hri
      obtain ⟨chunk_uid, b⟩ := p
      rcases hp : b.parse with e | env
      · simp only [seqLoop, hp]
        exact hri
      · rcases hpo : persistOutcome b.persist_raises s.repo env with e | repo1
        · simp only [seqLoop, hp, hpo]
          exact ih _ (draftAlignedB_cons hda).2 (RI_upsert_checkpoint hri)
        · have hri1 : ReferentialIntegrity repo1 :=
            RI_persist_email (Or.inl hpo) hri
          have hu1 : hasEmail repo1 env.uid = true := by
            rw [persistOutcome_ok_eq hpo, hasEmail_upsert]
            simp
          have hd : ∀ d, b.draft = Except.ok (some d) → d.email_uid = env.uid := by
            intro d hdr
            have hh := (draftAlignedB_cons hda).1
            rw [hp, hdr] at hh
            exact beq_iff_eq.mp hh
          have hri2 : ReferentialIntegrity (enrichMessage cfg repo1 env b).1 :=
            RI_enrichMessage cfg env b hri1 hu1 hd
          simp only [seqLoop, hp, hpo]
          by_cases hmax : maxReached cfg (s.processed + 1) = true
          · rw [if_pos hmax]
            exact RI_upsert_checkpoint hri2
          · rw [if_neg hmax]
            exact ih _ (draftAlignedB_cons hda).2 (RI_upsert_checkpoint hri2)

theorem MailFetcher_run_RI (cfg : SeqConfig) (chunks : List (Nat × MsgBehavior))
    {st : RepoState} (hda : draftAlignedB chunks = true)
    (hri : ReferentialIntegrity st) :
    ReferentialIntegrity (MailFetcher.run cfg chunks st).repo :=
  seqLoop_RI cfg chunks ⟨st, 0, 0, get_checkpoint st cfg.mailbox⟩ hda hri

theorem RI_cacheCheckLoop (l : List (EmailEnvelope × Except Unit EmailAnalysis)) :
    ∀ st : RepoState, ReferentialIntegrity st →
    ReferentialIntegrity (cacheCheckLoop st l).1 := by
  induction l with
  | nil => intro st hri; exact hri
  | cons p rest ih =>
      intro st hri
      obtain ⟨env, a⟩ := p
      rw [cacheCheckLoop]
      cases hfc : find_cached_analysis
          (update_content_hash st env.uid (compute_content_hash env))
          (compute_content_hash env) <;>
        simp only [hfc] <;>
        exact ih _ (RI_update_content_hash hri)

theorem RI_cachedLoop (l : List (Nat × EmailInsight)) :
    ∀ st : RepoState, ReferentialIntegrity st →
    ReferentialIntegrity (cachedLoop st l).1 := by
  induction l with
  | nil => intro st hri; exact hri
  | cons p rest ih =>
      intro st hri
      obtain ⟨uid, cached⟩ := p
      rw [cachedLoop]
      rcases hpi : persist_insight st
          { email_uid := uid, summary := cached.summary,
            action_items := cached.action_items, priority := cached.priority,
            provider := cached.provider ++ " (cached)",
            generated_at := cached.generated_at,
            used_fallback := cached.used_fallback } with e | st1
      · simp only [hpi]
        exact hri
      · simp only [hpi]
        have hri1 := RI_persist_insight hpi hri
        have hu : hasEmail st1 uid = true := by
          obtain ⟨heq, hhe⟩ := persist_insight_ok_eq hpi
          rw [heq]
          exact hhe
        exact ih _ (RI_replace_categories hri1 hu)

theorem RI_process_batch (cfg : OptConfig)
    (batch : List (EmailEnvelope × Except Unit EmailAnalysis)) {st : RepoState}
    (hri : ReferentialIntegrity st) :
    ReferentialIntegrity (process_batch cfg st batch).1 := by
  by_cases hb : batch.isEmpty = true
  · have h : process_batch cfg st batch = (st, [], none) := by
      simp [process_batch, hb]
    rw [h]
    exact hri
  · simp only [process_batch, hb, Bool.false_eq_true, if_false]
    split
    · rw [storeLoop_state_eq]
      exact RI_cacheCheckLoop batch st hri
    · refine RI_cachedLoop _ _ ?_
      rw [storeLoop_state_eq]
      exact RI_cacheCheckLoop batch st hri

theorem optLoop_RI (cfg : OptConfig) :
    ∀ (chunks : List (Nat × OptMsgBehavior)) (s : OptCore),
    ReferentialIntegrity s.repo →
    ReferentialIntegrity (optLoop cfg chunks s).1.repo := by
  intro chunks
  induction chunks with
  | nil => intro s hri; exact hri
  | cons p rest ih =>
      intro s hri
      obtain ⟨chunk_uid, b⟩ := p
      rcases hp : b.parse with e | env
      · simp only [optLoop, hp]
        exact hri
      · rcases hpo : persistOutcome b.persist_raises s.repo env with e | repo1
        · simp only [optLoop, hp, hpo]
          exact hri
        · have hri1 : ReferentialIntegrity repo1 :=
            RI_persist_email (Or.inl hpo) hri
          simp only [optLoop, hp, hpo]
          by_cases hbs : cfg.analysis_batch_size
              ≤ (s.pending ++ [(env, b.analyze)]).length
          · rw [if_pos hbs]
            have hpb := RI_process_batch cfg (s.pending ++ [(env, b.analyze)]) hri1
            split
            · exact hpb
            · by_cases hmax : optMaxReached cfg (s.processed + 1) = true
              · rw [if_pos hmax]
                exact RI_upsert_checkpoint hpb
              · rw [if_neg hmax]
                exact ih _ (RI_upsert_checkpoint hpb)
          · rw [if_neg hbs]
            by_cases hmax : optMaxReached cfg (s.processed + 1) = true
            · rw [if_pos hmax]
              exact RI_upsert_checkpoint hri1
            · rw [if_neg hmax]
              exact ih _ (RI_upsert_checkpoint hri1)

theorem OptimizedMailFetcher_run_RI (cfg : OptConfig)
    (chunks : List (Nat × OptMsgBehavior)) {st : RepoState}
    (hri : ReferentialIntegrity st) :
    ReferentialIntegrity (OptimizedMailFetcher.run cfg chunks st).repo := by
  have h1 := optLoop_RI cfg chunks ⟨st, 0, get_checkpoint st cfg.mailbox, []⟩ hri
  simp only [OptimizedMailFetcher.run]
  split
  · split
    · exact h1
    · split
      · exact RI_process_batch cfg _ h1
      · exact RI_process_batch cfg _ h1
  · exact h1

/-- C5: enrichment is downstream of persistence.  At every point during
and after a run of either orchestrator (formalized as: after processing
any prefix of the fetched chunk list), if an insight, category row,
follow-up row or draft exists for a UID then an email row for that UID
exists, provided it did at the start and (for the sequential variant) the
drafting service honours its contract of tagging drafts with the
envelope's UID; and persisting an insight for a UID with no stored email
row is rejected with the `ValueError`, no state being returned. -/
theorem enrichment_downstream_of_persistence
    (cfg : SeqConfig) (ocfg : OptConfig)
    (chunks : List (Nat × MsgBehavior)) (ochunks : List (Nat × OptMsgBehavior))
    (st ost : RepoState) (ins : EmailInsight)
    (hda : draftAlignedB chunks = true)
    (hri : ReferentialIntegrity st) (hri2 : ReferentialIntegrity ost)
    (hmiss : hasEmail st ins.email_uid = false) :
    (∀ k, ReferentialIntegrity (MailFetcher.run cfg (chunks.take k) st).repo)
    ∧ (∀ k, ReferentialIntegrity
        (OptimizedMailFetcher.run ocfg (ochunks.take k) ost).repo)
    ∧ persist_insight st ins
        = .error "Email UID must be persisted before its insight" := by
  refine ⟨?_, ?_, persist_insight_rejects hmiss⟩
  · intro k
    refine MailFetcher_run_RI cfg (chunks.take k) ?_ hri
    rw [draftAlignedB, List.all_eq_true] at hda ⊢
    intro x hx
    exact hda x (List.take_subset k chunks hx)
  · intro k
    exact OptimizedMailFetcher_run_RI ocfg (ochunks.take k) hri2

/-- Witness for C5: a sequential run of one message with full services, an
optimized run of one message, and a rejected orphan insight, from the
empty repository. -/
theorem enrichment_downstream_of_persistence_witness :
    ReferentialIntegrity (MailFetcher.run cfgC4 [(1, behaviorC4)] RepoState.empty).repo
    ∧ ReferentialIntegrity
        (OptimizedMailFetcher.run cfgC3 [(1, obC3a)] RepoState.empty).repo
    ∧ persist_insight RepoState.empty insightW
        = Except.error "Email UID must be persisted before its insight" := by
  have h := enrichment_downstream_of_persistence cfgC4 cfgC3 [(1, behaviorC4)]
    [(1, obC3a)] RepoState.empty RepoState.empty insightW rfl
    (by simp [ReferentialIntegrity, RepoState.empty])
    (by simp [ReferentialIntegrity, RepoState.empty]) rfl
  exact ⟨h.1 1, h.2.1 1, h.2.2⟩

/-! ## C1 support: checkpoint bookkeeping lemmas -/

theorem attemptUids_append (l1 l2 : List Event) :
    attemptUids (l1 ++ l2) = attemptUids l1 ++ attemptUids l2 := by
  simp [attemptUids, List.filterMap_append]

theorem checkpointUids_append (l1 l2 : List Event) :
    checkpointUids (l1 ++ l2) = checkpointUids l1 ++ checkpointUids l2 := by
  simp [checkpointUids, List.filterMap_append]

theorem find_upsertSyncRow : ∀ (l : List (String × Nat)) (mb : String) (u : Nat),
    (upsertSyncRow l mb u).find? (fun r => r.1 == mb) = some (mb, u) := by
  intro l mb u
  induction l with
  | nil => simp [upsertSyncRow]
  | cons r rs ih =>
      by_cases h : (r.1 == mb) = true
      · simp [upsertSyncRow, h]
      · simp [upsertSyncRow, h, ih]

theorem get_checkpoint_upsert (st : RepoState) (mb : String) (u : Nat) :
    get_checkpoint (upsert_checkpoint st ⟨mb, u⟩) mb = some u := by
  show ((upsertSyncRow st.sync_state mb u).find? (fun r => r.1 == mb)).map
      (fun p => p.2) = some u
  rw [find_upsertSyncRow]
  rfl

theorem option_toList_getLast (o : Option Nat) : o.toList.getLast? = o := by
  cases o <;> simp

theorem getLast_cons_or (c : Nat) : ∀ (l : List Nat) (x y : Option Nat),
    ((c :: l).getLast?).or x = ((c :: l).getLast?).or y := by
  intro l
  induction l generalizing c with
  | nil => intro x y; rfl
  | cons d l2 ih =>
      intro x y
      rw [List.getLast?_cons_cons]
      exact ih d x y

theorem getLast_or_shift (a : Nat) (ks : List Nat) (x : Option Nat) :
    ((a :: ks).getLast?).or x = (ks.getLast?).or (some a) := by
  cases ks with
  | nil => rfl
  | cons c ks2 =>
      rw [List.getLast?_cons_cons]
      exact getLast_cons_or c ks2 x (some a)

theorem cons_getLast_some (c : Nat) : ∀ (l : List Nat),
    ∃ m, (c :: l).getLast? = some m := by
  intro l
  induction l generalizing c with
  | nil => exact ⟨c, rfl⟩
  | cons d l2 ih =>
      obtain ⟨m, hm⟩ := ih d
      refine ⟨m, ?_⟩
      rw [List.getLast?_cons_cons]
      exact hm

theorem pairwise_lt_getLast_max :
    ∀ {ks : List Nat} {m : Nat}, List.Pairwise (fun a b => a < b) ks →
    ks.getLast? = some m → m ∈ ks ∧ ∀ v ∈ ks, v ≤ m := by
  intro ks
  induction ks with
  | nil => intro m _ hm; cases hm
  | cons a ks ih =>
      intro m hp hm
      cases ks with
      | nil =>
          rw [List.getLast?_singleton] at hm
          injection hm with h
          subst h
          refine ⟨List.mem_singleton_self a, ?_⟩
          intro v hv
          rw [List.mem_singleton] at hv
          exact le_of_eq hv
      | cons b ks2 =>
          rw [List.getLast?_cons_cons] at hm
          have hp2 := List.pairwise_cons.mp hp
          obtain ⟨hmem, hmax⟩ := ih hp2.2 hm
          refine ⟨List.mem_cons_of_mem a hmem, ?_⟩
          intro v hv
          rcases List.mem_cons.mp hv with rfl | hv2
          · exact le_of_lt (hp2.1 m hmem)
          · exact hmax v hv2

theorem uidConsistentB_cons {p : Nat × MsgBehavior} {rest : List (Nat × MsgBehavior)}
    (h : uidConsistentB (p :: rest) = true) :
    (match p.2.parse with
     | .ok env => env.uid == p.1
     | .error _ => true) = true ∧ uidConsistentB rest = true := by
  have h2 : ((match p.2.parse with
      | .ok env => env.uid == p.1
      | .error _ => true)
      && rest.all (fun p => match p.2.parse with
        | .ok env => env.uid == p.1
        | .error _ => true)) = true := h
  exact And.imp id id (Bool.and_eq_true_iff.mp h2)

/-- Master checkpoint lemma for the sequential loop: the persistence
attempts of a call are the UIDs of an initial segment of the chunk list
(the run may abort early on a parse failure or stop at `max_messages`),
the checkpoint writes are exactly the attempts, and the final stored
checkpoint is the last attempt, falling back to the prior value when
there was none. -/
theorem seqLoop_cp_master (cfg : SeqConfig) :
    ∀ (chunks : List (Nat × MsgBehavior)) (s : SeqCore),
    uidConsistentB chunks = true →
    ∃ ks t, chunks.map (fun p => p.1) = ks ++ t
      ∧ attemptUids (seqLoop cfg chunks s).2.1 = ks
      ∧ checkpointUids (seqLoop cfg chunks s).2.1 = ks
      ∧ get_checkpoint (seqLoop cfg chunks s).1.repo cfg.mailbox
          = (ks.getLast?).or (get_checkpoint s.repo cfg.mailbox) := by
  intro chunks
  induction chunks with
  | nil =>
      intro s _
      exact ⟨[], [], rfl, rfl, rfl, rfl⟩
  | cons p rest ih =>
      intro s hcon
      obtain ⟨chunk_uid, b⟩ := p
      have hcon2 : uidConsistentB rest = true := (uidConsistentB_cons hcon).2
      rcases hp : b.parse with e | env
      · refine ⟨[], chunk_uid :: rest.map (fun p => p.1), by simp, ?_, ?_, ?_⟩ <;>
          simp only [seqLoop, hp]
        · rfl
        · rfl
        · rfl
      · have huid : env.uid = chunk_uid := by
          have hh := (uidConsistentB_cons hcon).1
          rw [hp] at hh
          exact beq_iff_eq.mp hh
        rcases hpo : persistOutcome b.persist_raises s.repo env with e | repo1
        · obtain ⟨ks, t, hsplit, ha, hc, hcp⟩ := ih
            ⟨upsert_checkpoint s.repo ⟨cfg.mailbox, chunk_uid⟩, s.processed,
              s.failed + 1, some chunk_uid⟩ hcon2
          simp only [get_checkpoint_upsert] at hcp
          simp only [seqLoop, hp, hpo]
          refine ⟨chunk_uid :: ks, t, ?_, ?_, ?_, ?_⟩
          · show chunk_uid :: rest.map (fun p => p.1) = (chunk_uid :: ks) ++ t
            rw [hsplit]
            rfl
          · show env.uid :: attemptUids (seqLoop cfg rest
                ⟨upsert_checkpoint s.repo ⟨cfg.mailbox, chunk_uid⟩, s.processed,
                  s.failed + 1, some chunk_uid⟩).2.1 = chunk_uid :: ks
            rw [huid, ha]
          · show chunk_uid :: checkpointUids (seqLoop cfg rest
                ⟨upsert_checkpoint s.repo ⟨cfg.mailbox, chunk_uid⟩, s.processed,
                  s.failed + 1, some chunk_uid⟩).2.1 = chunk_uid :: ks
            rw [hc]
          · show get_checkpoint (seqLoop cfg rest
                ⟨upsert_checkpoint s.repo ⟨cfg.mailbox, chunk_uid⟩, s.processed,
                  s.failed + 1, some chunk_uid⟩).1.repo cfg.mailbox
                = ((chunk_uid :: ks).getLast?).or (get_checkpoint s.repo cfg.mailbox)
            rw [getLast_or_shift]
            exact hcp
        · have henr := attemptUids_of_enrich (enrich_events_kind cfg repo1 env b)
          simp only [seqLoop, hp, hpo]
          by_cases hmax : maxReached cfg (s.processed + 1) = true
          · rw [if_pos hmax]
            refine ⟨[chunk_uid], rest.map (fun p => p.1), by simp, ?_, ?_, ?_⟩
            · show env.uid :: attemptUids ((enrichMessage cfg repo1 env b).2
                  ++ [Event.checkpointWrite chunk_uid]) = [chunk_uid]
              rw [attemptUids_append, henr.1, huid]
              rfl
            · show checkpointUids ((enrichMessage cfg repo1 env b).2
                  ++ [Event.checkpointWrite chunk_uid]) = [chunk_uid]
              rw [checkpointUids_append, henr.2]
              rfl
            · show get_checkpoint (upsert_checkpoint (enrichMessage cfg repo1 env b).1
                  ⟨cfg.mailbox, chunk_uid⟩) cfg.mailbox
                  = (([chunk_uid] : List Nat).getLast?).or
                      (get_checkpoint s.repo cfg.mailbox)
              rw [get_checkpoint_upsert]
              rfl
          · rw [if_neg hmax]
            obtain ⟨ks, t, hsplit, ha, hc, hcp⟩ := ih
                ⟨upsert_checkpoint (enrichMessage cfg repo1 env b).1
                  ⟨cfg.mailbox, chunk_uid⟩,
                  s.processed + 1, s.failed, some chunk_uid⟩ hcon2
            simp only [get_checkpoint_upsert] at hcp
            refine ⟨chunk_uid :: ks, t, ?_, ?_, ?_, ?_⟩
            · show chunk_uid :: rest.map (fun p => p.1) = (chunk_uid :: ks) ++ t
              rw [hsplit]
              rfl
            · show env.uid :: attemptUids (((enrichMessage cfg repo1 env b).2
                  ++ [Event.checkpointWrite chunk_uid])
                  ++ (seqLoop cfg rest
                    ⟨upsert_checkpoint (enrichMessage cfg repo1 env b).1
                      ⟨cfg.mailbox, chunk_uid⟩,
                      s.processed + 1, s.failed, some chunk_uid⟩).2.1)
                  = chunk_uid :: ks
              rw [attemptUids_append, attemptUids_append, henr.1, huid, ha]
              rfl
            · show checkpointUids (((enrichMessage cfg repo1 env b).2
                  ++ [Event.checkpointWrite chunk_uid])
                  ++ (seqLoop cfg rest
                    ⟨upsert_checkpoint (enrichMessage cfg repo1 env b).1
                      ⟨cfg.mailbox, chunk_uid⟩,
                      s.processed + 1, s.failed, some chunk_uid⟩).2.1)
                  = chunk_uid :: ks
              rw [checkpointUids_append, checkpointUids_append, henr.2, hc]
              rfl
            · show get_checkpoint (seqLoop cfg rest
                  ⟨upsert_checkpoint (enrichMessage cfg repo1 env b).1
                    ⟨cfg.mailbox, chunk_uid⟩,
                    s.processed + 1, s.failed, some chunk_uid⟩).1.repo cfg.mailbox
                  = ((chunk_uid :: ks).getLast?).or (get_checkpoint s.repo cfg.mailbox)
              rw [getLast_or_shift]
              exact hcp

theorem run_cp_summary (cfg : SeqConfig) (chunks : List (Nat × MsgBehavior))
    (st : RepoState) (hcon : uidConsistentB chunks = true) :
    ∃ ks t, chunks.map (fun p => p.1) = ks ++ t
      ∧ attemptUids (MailFetcher.run cfg chunks st).trace = ks
      ∧ checkpointUids (MailFetcher.run cfg chunks st).trace = ks
      ∧ get_checkpoint (MailFetcher.run cfg chunks st).repo cfg.mailbox
          = (ks.getLast?).or (get_checkpoint st cfg.mailbox) := by
  obtain ⟨ks, t, h1, h2, h3, h4⟩ := seqLoop_cp_master cfg chunks
      ⟨st, 0, 0, get_checkpoint st cfg.mailbox⟩ hcon
  exact ⟨ks, t, h1, h2, h3, h4⟩

theorem fetch_since_sublist (msgs : List (Nat × MsgBehavior)) (lc : Option Nat) :
    List.Sublist (fetch_since msgs lc) msgs := by
  cases lc with
  | none => exact List.Sublist.refl msgs
  | some c => exact List.filter_sublist msgs

theorem fetch_since_mem_gt {msgs : List (Nat × MsgBehavior)} {c : Nat}
    {x : Nat × MsgBehavior} (hx : x ∈ fetch_since msgs (some c)) : c < x.1 := by
  have h := List.of_mem_filter hx
  simpa using h

theorem fetch_since_uidConsistent {msgs : List (Nat × MsgBehavior)} (lc : Option Nat)
    (h : uidConsistentB msgs = true) :
    uidConsistentB (fetch_since msgs lc) = true := by
  rw [uidConsistentB, List.all_eq_true] at h ⊢
  intro x hx
  exact h x ((fetch_since_sublist msgs lc).subset hx)

theorem fetch_since_pairwise {msgs : List (Nat × MsgBehavior)} (lc : Option Nat)
    (h : List.Pairwise (fun a b => a < b) (msgs.map (fun p => p.1))) :
    List.Pairwise (fun a b => a < b) ((fetch_since msgs lc).map (fun p => p.1)) :=
  List.Pairwise.sublist (List.Sublist.map _ (fetch_since_sublist msgs lc)) h

theorem chain_append_drop_last {l m : List Nat}
    (hl : List.Chain' (fun a b => a ≤ b) l)
    (hm : List.Chain' (fun a b => a ≤ b) (l.getLast?.toList ++ m)) :
    List.Chain' (fun a b => a ≤ b) (l ++ m) := by
  rcases hll : l.getLast? with _ | x
  · have hnil : l = [] := by
      cases l with
      | nil => rfl
      | cons c l2 =>
          obtain ⟨mm, hmm⟩ := cons_getLast_some c l2
          rw [hll] at hmm
          cases hmm
    subst hnil
    rw [hll] at hm
    simpa using hm
  · rw [hll] at hm
    have hm2 : List.Chain' (fun a b => a ≤ b) (x :: m) := by simpa using hm
    have hc := List.chain'_cons'.mp hm2
    refine List.Chain'.append hl hc.2 ?_
    intro p hp q hq
    rw [hll] at hp
    rw [Option.mem_some_iff] at hp
    subst hp
    exact hc.1 q hq

theorem runMany_chain (cfg : SeqConfig) :
    ∀ (msgsList : List (List (Nat × MsgBehavior))) (st : RepoState),
    (∀ ms ∈ msgsList, uidConsistentB ms = true) →
    (∀ ms ∈ msgsList, List.Pairwise (fun a b => a < b) (ms.map (fun p => p.1))) →
    RunChainOK cfg st (runMany cfg msgsList st) := by
  intro msgsList
  induction msgsList with
  | nil => intro st _ _; exact trivial
  | cons msgs rest ih =>
      intro st hcon hasc
      have hcon1 := hcon msgs (List.mem_cons_self _ _)
      have hasc1 := hasc msgs (List.mem_cons_self _ _)
      obtain ⟨ks, t, hsplit, ha, hc, hcp⟩ := run_cp_summary cfg
          (fetch_since msgs (get_checkpoint st cfg.mailbox)) st
          (fetch_since_uidConsistent _ hcon1)
      have ha2 : attemptUids (runOnMailbox cfg msgs st).trace = ks := ha
      have hc2 : checkpointUids (runOnMailbox cfg msgs st).trace = ks := hc
      have hcp2 : get_checkpoint (runOnMailbox cfg msgs st).repo cfg.mailbox
          = (ks.getLast?).or (get_checkpoint st cfg.mailbox) := hcp
      refine ⟨?_, ?_, ?_, ?_⟩
      · rw [ha2, hc2]
      · intro h0
        rw [ha2] at h0
        rw [hcp2, h0]
        rfl
      · intro hne
        rw [ha2] at hne
        have hpw : List.Pairwise (fun a b => a < b) ks :=
          List.Pairwise.sublist (List.sublist_append_left ks t)
            (hsplit ▸ fetch_since_pairwise _ hasc1)
        obtain ⟨k0, ks2, hks⟩ := List.exists_cons_of_ne_nil hne
        obtain ⟨m, hm⟩ := cons_getLast_some k0 ks2
        rw [← hks] at hm
        obtain ⟨hmem, hmax⟩ := pairwise_lt_getLast_max hpw hm
        refine ⟨m, ?_, ?_, ?_⟩
        · rw [hcp2, hm]
          rfl
        · rw [ha2]
          exact hmem
        · intro v hv
          rw [ha2] at hv
          exact hmax v hv
      · exact ih (runOnMailbox cfg msgs st).repo
          (fun ms hms => hcon ms (List.mem_cons_of_mem _ hms))
          (fun ms hms => hasc ms (List.mem_cons_of_mem _ hms))

theorem runMany_cp_chain (cfg : SeqConfig) :
    ∀ (msgsList : List (List (Nat × MsgBehavior))) (st : RepoState),
    (∀ ms ∈ msgsList, uidConsistentB ms = true) →
    (∀ ms ∈ msgsList, List.Pairwise (fun a b => a < b) (ms.map (fun p => p.1))) →
    List.Chain' (fun a b => a ≤ b) (cpSequence cfg st (runMany cfg msgsList st)) := by
  intro msgsList
  induction msgsList with
  | nil =>
      intro st _ _
      cases h : get_checkpoint st cfg.mailbox <;> simp [cpSequence, runMany, h]
  | cons msgs rest ih =>
      intro st hcon hasc
      have hcon1 := hcon msgs (List.mem_cons_self _ _)
      have hasc1 := hasc msgs (List.mem_cons_self _ _)
      obtain ⟨ks, t, hsplit, ha, hc, hcp⟩ := run_cp_summary cfg
          (fetch_since msgs (get_checkpoint st cfg.mailbox)) st
          (fetch_since_uidConsistent _ hcon1)
      have hc2 : checkpointUids (runOnMailbox cfg msgs st).trace = ks := hc
      have hcp2 : get_checkpoint (runOnMailbox cfg msgs st).repo cfg.mailbox
          = (ks.getLast?).or (get_checkpoint st cfg.mailbox) := hcp
      have hpw : List.Pairwise (fun a b => a < b) ks :=
        List.Pairwise.sublist (List.sublist_append_left ks t)
          (hsplit ▸ fetch_since_pairwise _ hasc1)
      have hflat : cpSequence cfg st (runMany cfg (msgs :: rest) st)
          = ((get_checkpoint st cfg.mailbox).toList ++ ks)
            ++ ((runMany cfg rest (runOnMailbox cfg msgs st).repo).map
                (fun r => checkpointUids r.trace)).flatten := by
        show (get_checkpoint st cfg.mailbox).toList
            ++ ((runOnMailbox cfg msgs st
                :: runMany cfg rest (runOnMailbox cfg msgs st).repo).map
              (fun r => checkpointUids r.trace)).flatten = _
        rw [List.map_cons, List.flatten_cons, hc2, List.append_assoc]
      rw [hflat]
      refine chain_append_drop_last ?_ ?_
      · refine List.Chain'.append ?_ ?_ ?_
        · cases h : get_checkpoint st cfg.mailbox <;> simp
        · exact List.Chain'.imp (fun a b hab => le_of_lt hab) hpw.chain'
        · intro x hx y hy
          cases hold : get_checkpoint st cfg.mailbox with
          | none =>
              rw [hold] at hx
              simp at hx
          | some c =>
              rw [hold] at hx
              have hxc : c = x := by
                simpa using hx
              subst hxc
              have hyks : y ∈ ks := List.mem_of_mem_head? hy
              have hymap : y ∈ (fetch_since msgs
                  (get_checkpoint st cfg.mailbox)).map (fun p => p.1) := by
                rw [hsplit]
                exact List.mem_append_left t hyks
              rw [hold] at hymap
              obtain ⟨q, hq, hqy⟩ := List.mem_map.mp hymap
              have := fetch_since_mem_gt hq
              rw [hqy] at this
              exact le_of_lt this
      · have heq : (((get_checkpoint st cfg.mailbox).toList ++ ks).getLast?)
            = get_checkpoint (runOnMailbox cfg msgs st).repo cfg.mailbox := by
          rw [List.getLast?_append, option_toList_getLast, hcp2]
        rw [heq]
        exact ih (runOnMailbox cfg msgs st).repo
          (fun ms hms => hcon ms (List.mem_cons_of_mem _ hms))
          (fun ms hms => hasc ms (List.mem_cons_of_mem _ hms))

/-- C1: for any sequence of sequential-orchestrator runs against a fixed
mailbox whose source yields messages in ascending UID order (and whose
parser honours its contract of tagging envelopes with the chunk UID), the
stored checkpoint value is non-decreasing over the whole history
(`cpSequence` lists the initial value followed by every checkpoint write
in order), and each run writes the checkpoint exactly at its persistence
attempts — success or failure alike — ending equal to the largest
attempted UID, unchanged when nothing was attempted.  The checkpoint is
therefore tied to persistence attempts, never to enrichment success. -/
theorem checkpoint_monotone_tracks_attempts
    (cfg : SeqConfig) (msgsList : List (List (Nat × MsgBehavior)))
    (st : RepoState)
    (hcon : ∀ ms ∈ msgsList, uidConsistentB ms = true)
    (hasc : ∀ ms ∈ msgsList, List.Pairwise (fun a b => a < b)
      (ms.map (fun p => p.1))) :
    RunChainOK cfg st (runMany cfg msgsList st)
    ∧ List.Chain' (fun a b => a ≤ b)
        (cpSequence cfg st (runMany cfg msgsList st)) :=
  ⟨runMany_chain cfg msgsList st hcon hasc,
   runMany_cp_chain cfg msgsList st hcon hasc⟩

/-- Witness for C1: two runs on the same mailbox, the first persisting
message 1 successfully, the second seeing a message whose persistence
would fail (it is filtered out by the advanced checkpoint). -/
theorem checkpoint_monotone_tracks_attempts_witness :
    RunChainOK cfgW RepoState.empty
      (runMany cfgW [[(1, behaviorC4)], [(1, behaviorC2seq)]] RepoState.empty)
    ∧ List.Chain' (fun a b => a ≤ b)
        (cpSequence cfgW RepoState.empty
          (runMany cfgW [[(1, behaviorC4)], [(1, behaviorC2seq)]] RepoState.empty)) :=
  checkpoint_monotone_tracks_attempts cfgW [[(1, behaviorC4)], [(1, behaviorC2seq)]]
    RepoState.empty (by decide) (by decide)

/-! ## C7: replace-entire-set semantics -/

/-- **C7**: for every UID, performing `replace_categories`
(resp. `replace_follow_ups`) twice in sequence leaves exactly the rows
supplied to the second call for that UID, never a union of both calls. -/
theorem replace_operations_second_call_wins (st : RepoState) (uid : Nat)
    (c1 c2 : List EmailCategory) (t1 t2 : List FollowUpTask) :
    ((replace_categories (replace_categories st uid c1) uid c2).categories.filter
        (fun r => r.email_uid == uid)
      = c2.map (fun c => ⟨uid, c.key, c.label⟩))
    ∧ ((replace_follow_ups (replace_follow_ups st uid t1) uid t2).follow_ups.filter
        (fun r => r.email_uid == uid)
      = t2.map (fun t =>
          ⟨uid, t.action, t.due_at, t.status, t.created_at, t.completed_at⟩)) := by
  constructor
  · have hrepr : (replace_categories (replace_categories st uid c1) uid c2).categories
        = ((st.categories.filter (fun r => r.email_uid != uid)
            ++ c1.map (fun c => (⟨uid, c.key, c.label⟩ : CategoryRow))).filter
              (fun r => r.email_uid != uid))
          ++ c2.map (fun c => (⟨uid, c.key, c.label⟩ : CategoryRow)) := rfl
    have hall : ∀ x ∈ c2.map (fun c => (⟨uid, c.key, c.label⟩ : CategoryRow)),
        (fun r : CategoryRow => r.email_uid == uid) x = true := by
      intro x hx
      simp only [List.mem_map] at hx
      obtain ⟨c, -, rfl⟩ := hx
      simp
    rw [hrepr, List.filter_append,
      filter_ne_then_eq (fun r : CategoryRow => r.email_uid) uid,
      filter_eq_of_all _ _ hall, List.nil_append]
  · have hrepr : (replace_follow_ups (replace_follow_ups st uid t1) uid t2).follow_ups
        = ((st.follow_ups.filter (fun r => r.email_uid != uid)
            ++ t1.map (fun t =>
                (⟨uid, t.action, t.due_at, t.status, t.created_at,
                  t.completed_at⟩ : FollowUpRow))).filter
              (fun r => r.email_uid != uid))
          ++ t2.map (fun t =>
              (⟨uid, t.action, t.due_at, t.status, t.created_at,
                t.completed_at⟩ : FollowUpRow)) := rfl
    have hall : ∀ x ∈ t2.map (fun t =>
        (⟨uid, t.action, t.due_at, t.status, t.created_at, t.completed_at⟩ : FollowUpRow)),
        (fun r : FollowUpRow => r.email_uid == uid) x = true := by
      intro x hx
      simp only [List.mem_map] at hx
      obtain ⟨c, -, rfl⟩ := hx
      simp
    rw [hrepr, List.filter_append,
      filter_ne_then_eq (fun r : FollowUpRow => r.email_uid) uid,
      filter_eq_of_all _ _ hall, List.nil_append]

/-! ## C9: batch analysis isolates per-envelope failures -/

theorem analyze_batch_getElem (envelopes : List EmailEnvelope)
    (outcomes : List (Except Unit EmailAnalysis)) (i : Nat) :
    (analyze_batch envelopes outcomes)[i]? =
      (envelopes[i]?.bind (fun env => outcomes[i]?.map (fun o =>
        match o with
        | .ok a => a
        | .error _ => batchFallbackAnalysis env))) := by
  induction envelopes generalizing outcomes i with
  | nil => simp [analyze_batch]
  | cons e es ih =>
      cases outcomes with
      | nil => cases i <;> simp [analyze_batch]
      | cons o os =>
          cases i with
          | zero => simp [analyze_batch]
          | succ j => simpa [analyze_batch] using ih os j

/-- **C9**: in the batched analysis round, one envelope's failure never
fails the batch: the gather always yields one result per envelope in
input order; a raised analysis is replaced (for that envelope only) by
the neutral fallback — priority 5, the single generic action item, the
generic reply — and every successful analysis is returned unchanged. -/
theorem analyze_batch_isolates_failures (envelopes : List EmailEnvelope)
    (outcomes : List (Except Unit EmailAnalysis))
    (hlen : outcomes.length = envelopes.length) :
    (analyze_batch envelopes outcomes).length = envelopes.length
    ∧ (∀ (i : Nat) (env : EmailEnvelope) (a : EmailAnalysis),
        envelopes[i]? = some env → outcomes[i]? = some (.ok a) →
        (analyze_batch envelopes outcomes)[i]? = some a)
    ∧ (∀ (i : Nat) (env : EmailEnvelope),
        envelopes[i]? = some env → outcomes[i]? = some (.error ()) →
        (analyze_batch envelopes outcomes)[i]? = some (batchFallbackAnalysis env)
          ∧ (batchFallbackAnalysis env).priority = 5
          ∧ (batchFallbackAnalysis env).action_items = ["Review this email"]
          ∧ (batchFallbackAnalysis env).suggested_reply = "Thank you for your email.") := by
  refine ⟨?_, ?_, ?_⟩
  · simp [analyze_batch, hlen]
  · intro i env a h1 h2
    rw [analyze_batch_getElem, h1, h2]
    rfl
  · intro i env h1 h2
    rw [analyze_batch_getElem, h1, h2]
    exact ⟨rfl, rfl, rfl, rfl⟩

theorem analyze_batch_isolates_failures_witness :
    (analyze_batch [envW1, envW2] [.ok analysisW, .error ()]).length = 2
    ∧ (∀ (i : Nat) (env : EmailEnvelope) (a : EmailAnalysis),
        [envW1, envW2][i]? = some env →
        [Except.ok analysisW, Except.error ()][i]? = some (.ok a) →
        (analyze_batch [envW1, envW2] [.ok analysisW, .error ()])[i]? = some a)
    ∧ (∀ (i : Nat) (env : EmailEnvelope),
        [envW1, envW2][i]? = some env →
        [Except.ok analysisW, Except.error ()][i]? = some (.error ()) →
        (analyze_batch [envW1, envW2] [.ok analysisW, .error ()])[i]? =
            some (batchFallbackAnalysis env)
          ∧ (batchFallbackAnalysis env).priority = 5
          ∧ (batchFallbackAnalysis env).action_items = ["Review this email"]
          ∧ (batchFallbackAnalysis env).suggested_reply = "Thank you for your email.") :=
  analyze_batch_isolates_failures [envW1, envW2] [.ok analysisW, .error ()] rfl

/-! ## C10: follow-up planner deduplication -/

theorem planLoop_mem (settings : FollowUpSettings) (now : Int) (email_uid : Nat)
    (pr ga : Int) :
    ∀ (its seen : List String) (t : FollowUpTask),
    t ∈ planLoop settings now email_uid pr ga its seen →
    t.action ≠ "" ∧ seen.contains t.action.toLower = false
    ∧ (∃ raw ∈ its, t.action = raw.trim)
    ∧ t.status = "open" ∧ t.completed_at = none
    ∧ t.email_uid = email_uid ∧ t.created_at = now := by
  intro its
  induction its with
  | nil => intro seen t h; simp [planLoop] at h
  | cons raw rest ih =>
      intro seen t h
      rw [planLoop] at h
      by_cases h1 : raw.trim == ""
      · rw [if_pos h1] at h
        obtain ⟨ha, hs, ⟨r, hr, he⟩, hrest⟩ := ih seen t h
        exact ⟨ha, hs, ⟨r, List.mem_cons_of_mem _ hr, he⟩, hrest⟩
      · rw [if_neg h1] at h
        by_cases h2 : seen.contains raw.trim.toLower
        · rw [if_pos h2] at h
          obtain ⟨ha, hs, ⟨r, hr, he⟩, hrest⟩ := ih seen t h
          exact ⟨ha, hs, ⟨r, List.mem_cons_of_mem _ hr, he⟩, hrest⟩
        · rw [if_neg h2] at h
          rcases List.mem_cons.mp h with rfl | htail
          · refine ⟨by simpa using h1, by simpa using h2,
              ⟨raw, List.mem_cons_self _ _, rfl⟩, rfl, rfl, rfl, rfl⟩
          · obtain ⟨ha, hs, ⟨r, hr, he⟩, hrest⟩ := ih _ t htail
            rw [List.contains_cons] at hs
            simp only [Bool.or_eq_false_iff] at hs
            exact ⟨ha, hs.2, ⟨r, List.mem_cons_of_mem _ hr, he⟩, hrest⟩

theorem planLoop_keys_nodup (settings : FollowUpSettings) (now : Int)
    (email_uid : Nat) (pr ga : Int) :
    ∀ (its seen : List String),
    ((planLoop settings now email_uid pr ga its seen).map
      (fun t => t.action.toLower)).Nodup := by
  intro its
  induction its with
  | nil => intro seen; simp [planLoop]
  | cons raw rest ih =>
      intro seen
      rw [planLoop]
      by_cases h1 : raw.trim == ""
      · rw [if_pos h1]; exact ih seen
      · rw [if_neg h1]
        by_cases h2 : seen.contains raw.trim.toLower
        · rw [if_pos h2]; exact ih seen
        · rw [if_neg h2]
          simp only [List.map_cons, List.nodup_cons]
          refine ⟨?_, ih _⟩
          intro hmem
          simp only [List.mem_map] at hmem
          obtain ⟨t, ht, hkey⟩ := hmem
          obtain ⟨-, hs, -⟩ :=
            planLoop_mem settings now email_uid pr ga rest _ t ht
          rw [List.contains_cons] at hs
          simp only [Bool.or_eq_false_iff] at hs
          have hx : (t.action.toLower == raw.trim.toLower) = false := hs.1
          rw [hkey] at hx
          simp at hx

theorem planLoop_first_occurrence (settings : FollowUpSettings) (now : Int)
    (email_uid : Nat) (pr ga : Int) :
    ∀ (its seen : List String) (t : FollowUpTask),
    t ∈ planLoop settings now email_uid pr ga its seen →
    ∃ raw, its.find? (fun r => r.trim != "" && r.trim.toLower == t.action.toLower)
        = some raw
      ∧ t.action = raw.trim := by
  intro its
  induction its with
  | nil => intro seen t h; simp [planLoop] at h
  | cons raw rest ih =>
      intro seen t h
      rw [planLoop] at h
      by_cases h1 : (raw.trim == "") = true
      · rw [if_pos h1] at h
        obtain ⟨r, hfind, he⟩ := ih seen t h
        have hnp : ¬((fun r => r.trim != "" && r.trim.toLower == t.action.toLower) raw
            = true) := by
          simp only [Bool.and_eq_true, bne_iff_ne, ne_eq]
          rintro ⟨hc, -⟩
          exact hc (by simpa using h1)
        exact ⟨r, (List.find?_cons_of_neg
              (p := fun r : String => r.trim != "" && r.trim.toLower == t.action.toLower)
              _ hnp).trans hfind, he⟩
      · rw [if_neg h1] at h
        by_cases h2 : (seen.contains raw.trim.toLower) = true
        · rw [if_pos h2] at h
          obtain ⟨-, hs, -⟩ := planLoop_mem settings now email_uid pr ga rest seen t h
          obtain ⟨r, hfind, he⟩ := ih seen t h
          have hnp : ¬((fun r => r.trim != "" && r.trim.toLower == t.action.toLower) raw
              = true) := by
            simp only [Bool.and_eq_true, bne_iff_ne, ne_eq]
            rintro ⟨-, hkeq⟩
            rw [beq_iff_eq] at hkeq
            rw [hkeq] at h2
            rw [h2] at hs
            exact Bool.noConfusion hs
          exact ⟨r, (List.find?_cons_of_neg
              (p := fun r : String => r.trim != "" && r.trim.toLower == t.action.toLower)
              _ hnp).trans hfind, he⟩
        · rw [if_neg h2] at h
          rcases List.mem_cons.mp h with rfl | htail
          · refine ⟨raw, ?_, rfl⟩
            apply List.find?_cons_of_pos
            simp only [Bool.and_eq_true, bne_iff_ne, ne_eq]
            exact ⟨by simpa using h1, by simp⟩
          · obtain ⟨-, hs, -⟩ := planLoop_mem settings now email_uid pr ga rest _ t htail
            rw [List.contains_cons] at hs
            simp only [Bool.or_eq_false_iff] at hs
            obtain ⟨r, hfind, he⟩ := ih _ t htail
            have hnp : ¬((fun r => r.trim != "" && r.trim.toLower == t.action.toLower) raw
                = true) := by
              simp only [Bool.and_eq_true, bne_iff_ne, ne_eq]
              rintro ⟨-, hkeq⟩
              rw [beq_iff_eq] at hkeq
              have hx : (t.action.toLower == raw.trim.toLower) = false := hs.1
              rw [← hkeq] at hx
              simp at hx
            exact ⟨r, (List.find?_cons_of_neg
              (p := fun r : String => r.trim != "" && r.trim.toLower == t.action.toLower)
              _ hnp).trans hfind, he⟩

theorem planLoop_covers (settings : FollowUpSettings) (now : Int)
    (email_uid : Nat) (pr ga : Int) :
    ∀ (its seen : List String) (raw : String), raw ∈ its → raw.trim ≠ "" →
    seen.contains raw.trim.toLower = true
    ∨ ∃ t ∈ planLoop settings now email_uid pr ga its seen,
        t.action.toLower = raw.trim.toLower := by
  intro its
  induction its with
  | nil => intro seen raw h; exact absurd h (List.not_mem_nil raw)
  | cons raw0 rest ih =>
      intro seen raw hmem hne
      rw [planLoop]
      by_cases h1 : raw0.trim == ""
      · rw [if_pos h1]
        rcases List.mem_cons.mp hmem with rfl | htail
        · exact absurd (by simpa using h1) hne
        · exact ih seen raw htail hne
      · rw [if_neg h1]
        by_cases h2 : seen.contains raw0.trim.toLower
        · rw [if_pos h2]
          rcases List.mem_cons.mp hmem with rfl | htail
          · exact Or.inl h2
          · exact ih seen raw htail hne
        · rw [if_neg h2]
          rcases List.mem_cons.mp hmem with rfl | htail
          · refine Or.inr ⟨_, List.mem_cons_self _ _, rfl⟩
          · rcases ih (raw0.trim.toLower :: seen) raw htail hne with hin | ⟨t, ht, hk⟩
            · rw [List.contains_cons] at hin
              rcases Bool.or_eq_true_iff.mp hin with heq | hseen
              · rw [beq_iff_eq] at heq
                exact Or.inr ⟨_, List.mem_cons_self _ _, heq.symm⟩
              · exact Or.inl hseen
            · exact Or.inr ⟨t, List.mem_cons_of_mem _ ht, hk⟩

/-- **C10**: the planner emits at most one task per distinct action item
under trimmed, case-insensitive comparison: lower-cased task actions are
pairwise distinct; every task's action is the (nonempty) trim of some
input item; each task corresponds to the first nonblank input item with
its key; and every nonblank input item is represented by exactly that
one task. -/
theorem plan_follow_ups_dedups_actions (settings : FollowUpSettings)
    (now : Int) (email : EmailEnvelope) (insight : EmailInsight) :
    (((plan_follow_ups settings now email insight).map
        (fun t => t.action.toLower)).Nodup)
    ∧ (∀ t ∈ plan_follow_ups settings now email insight,
        t.action ≠ "" ∧ ∃ raw ∈ insight.action_items, t.action = raw.trim)
    ∧ (∀ t ∈ plan_follow_ups settings now email insight,
        ∃ raw, insight.action_items.find?
            (fun r => r.trim != "" && r.trim.toLower == t.action.toLower) = some raw
          ∧ t.action = raw.trim)
    ∧ (∀ raw ∈ insight.action_items, raw.trim ≠ "" →
        ∃ t ∈ plan_follow_ups settings now email insight,
          t.action.toLower = raw.trim.toLower) := by
  refine ⟨planLoop_keys_nodup _ _ _ _ _ _ _, ?_, ?_, ?_⟩
  · intro t ht
    obtain ⟨ha, -, hex, -⟩ :=
      planLoop_mem settings now email.uid insight.priority insight.generated_at _ _ t ht
    exact ⟨ha, hex⟩
  · intro t ht
    exact planLoop_first_occurrence settings now email.uid insight.priority
      insight.generated_at _ _ t ht
  · intro raw hraw hne
    rcases planLoop_covers settings now email.uid insight.priority
        insight.generated_at insight.action_items [] raw hraw hne with hin | h
    · simp at hin
    · exact h

theorem plan_follow_ups_dedups_actions_witness :
    (((plan_follow_ups settingsW 200 envW1 insightW).map
        (fun t => t.action.toLower)).Nodup)
    ∧ (∀ t ∈ plan_follow_ups settingsW 200 envW1 insightW,
        t.action ≠ "" ∧ ∃ raw ∈ insightW.action_items, t.action = raw.trim)
    ∧ (∀ t ∈ plan_follow_ups settingsW 200 envW1 insightW,
        ∃ raw, insightW.action_items.find?
            (fun r => r.trim != "" && r.trim.toLower == t.action.toLower) = some raw
          ∧ t.action = raw.trim)
    ∧ (∀ raw ∈ insightW.action_items, raw.trim ≠ "" →
        ∃ t ∈ plan_follow_ups settingsW 200 envW1 insightW,
          t.action.toLower = raw.trim.toLower) :=
  plan_follow_ups_dedups_actions settingsW 200 envW1 insightW

/-! ## C6: the category-aware insight regeneration -/

theorem regenerated_insight_never_persisted :
    fetch_insight (MailFetcher.run cfgC6 [(1, behaviorC6)] RepoState.empty).repo 1
      = some insC6first
    ∧ ((MailFetcher.run cfgC6 [(1, behaviorC6)] RepoState.empty).trace.countP
        (fun e => match e with | .insightWrite _ => true | _ => false)) = 1 :=
  ⟨rfl, rfl⟩

/-! ## C3: content-addressed caching in the batched orchestrator -/

/-- **C3** (code bug): processing two identical-content envelopes, the
batched orchestrator makes TWO composite AI calls — the cache is
consulted for the whole batch before any result is stored, so both
envelopes miss — and then `_store_analysis` raises `AttributeError` on
`analysis.generated_at` (no such pydantic field), so no insight at all is
persisted for either envelope and the run aborts without a report. -/
theorem duplicate_content_batch_makes_two_calls_and_crashes :
    runC3.report = none
    ∧ runC3.repo.insights = []
    ∧ (runC3.trace.countP
        (fun e => match e with | .aiCall _ => true | _ => false)) = 2
    ∧ fetch_insight runC3.repo 2 = none :=
  ⟨rfl, rfl, rfl, rfl⟩

/-! ## C2: persistence-failure handling in the two orchestrators -/

/-- **C2** (counterexample): in the batched orchestrator a persistence
failure is not caught — with UID 1's `persist_email` raising, the run
aborts: the checkpoint is NOT advanced to UID 1, UID 2 is never
processed, and nothing is written, contrary to the claim that both
variants mark the message failed, advance the checkpoint and continue. -/
theorem optimized_persist_failure_aborts_run :
    runC2.report = none
    ∧ get_checkpoint runC2.repo "INBOX" = none
    ∧ hasEmail runC2.repo 2 = false
    ∧ runC2.repo = RepoState.empty :=
  ⟨rfl, rfl, rfl, rfl⟩

/-- **C2** (amended): in the *sequential* orchestrator a persistence
failure behaves as the claim says: the message is counted failed (not
processed), no enrichment events are produced for it, the checkpoint is
still advanced to the chunk's UID, and the loop continues with the
remaining messages.  In the *batched* orchestrator the failure
propagates: the loop stops immediately with no checkpoint write, no
failed-count, and no further messages processed. -/
theorem persistence_failure_handling (cfg : SeqConfig) (ocfg : OptConfig)
    (chunk_uid ochunk_uid : Nat) (b : MsgBehavior) (ob : OptMsgBehavior)
    (rest : List (Nat × MsgBehavior)) (orest : List (Nat × OptMsgBehavior))
    (s : SeqCore) (os : OptCore) (env oenv : EmailEnvelope)
    (hp : b.parse = .ok env) (hop : ob.parse = .ok oenv)
    (msg : String) (hf : persistOutcome b.persist_raises s.repo env = .error msg)
    (omsg : String)
    (hof : persistOutcome ob.persist_raises os.repo oenv = .error omsg) :
    (seqLoop cfg ((chunk_uid, b) :: rest) s
      = ((seqLoop cfg rest
            ⟨upsert_checkpoint s.repo ⟨cfg.mailbox, chunk_uid⟩,
             s.processed, s.failed + 1, some chunk_uid⟩).1,
         Event.persistAttempt env.uid false :: Event.checkpointWrite chunk_uid ::
           (seqLoop cfg rest
              ⟨upsert_checkpoint s.repo ⟨cfg.mailbox, chunk_uid⟩,
               s.processed, s.failed + 1, some chunk_uid⟩).2.1,
         (seqLoop cfg rest
            ⟨upsert_checkpoint s.repo ⟨cfg.mailbox, chunk_uid⟩,
             s.processed, s.failed + 1, some chunk_uid⟩).2.2))
    ∧ optLoop ocfg ((ochunk_uid, ob) :: orest) os
        = (os, [Event.persistAttempt oenv.uid false], false) := by
  constructor
  · simp only [seqLoop, hp, hf]
  · simp only [optLoop, hop, hof]

/-- Witness for C2's amended theorem at a concrete failing message. -/
theorem persistence_failure_handling_witness :
    (seqLoop cfgW [(1, behaviorC2seq)] coreW
      = ((seqLoop cfgW []
            ⟨upsert_checkpoint coreW.repo ⟨cfgW.mailbox, 1⟩,
             coreW.processed, coreW.failed + 1, some 1⟩).1,
         Event.persistAttempt envC3a.uid false :: Event.checkpointWrite 1 ::
           (seqLoop cfgW []
              ⟨upsert_checkpoint coreW.repo ⟨cfgW.mailbox, 1⟩,
               coreW.processed, coreW.failed + 1, some 1⟩).2.1,
         (seqLoop cfgW []
            ⟨upsert_checkpoint coreW.repo ⟨cfgW.mailbox, 1⟩,
             coreW.processed, coreW.failed + 1, some 1⟩).2.2))
    ∧ optLoop cfgC3 [(1, obC2fail)] ocoreW
        = (ocoreW, [Event.persistAttempt envC3a.uid false], false) :=
  persistence_failure_handling cfgW cfgC3 1 1 behaviorC2seq obC2fail [] []
    coreW ocoreW envC3a envC3a rfl rfl "database failure" rfl
    "database failure" rfl

/-- **C8**: every follow-up task created and persisted by the pipeline
has status `"open"` (hence in the set containing `"open"` and `"done"`)
and no completed timestamp: the concrete planner only emits such tasks;
the sequential orchestrator only inserts rows carrying the planner's
status; and the batched orchestrator never adds a follow-up row at all
(its store path raises before reaching `replace_follow_ups`). -/
theorem follow_up_tasks_created_open (settings : FollowUpSettings) (now : Int)
    (email : EmailEnvelope) (insight : EmailInsight)
    (cfg : SeqConfig) (chunks : List (Nat × MsgBehavior)) (st : RepoState)
    (ocfg : OptConfig) (ochunks : List (Nat × OptMsgBehavior)) (ost : RepoState)
    (hplan : plansOpenB chunks = true) :
    (∀ t ∈ plan_follow_ups settings now email insight,
        t.status = "open" ∧ t.completed_at = none)
    ∧ (∀ row ∈ (MailFetcher.run cfg chunks st).repo.follow_ups,
        row ∈ st.follow_ups ∨ (row.status = "open" ∧ row.completed_at = none))
    ∧ (OptimizedMailFetcher.run ocfg ochunks ost).repo.follow_ups
        = ost.follow_ups := by
  refine ⟨?_, ?_, optimized_run_follow_ups ocfg ochunks ost⟩
  · intro t ht
    obtain ⟨-, -, -, hs, hc, -⟩ :=
      planLoop_mem settings now email.uid insight.priority insight.generated_at
        _ _ t ht
    exact ⟨hs, hc⟩
  · intro row hrow
    unfold MailFetcher.run at hrow
    exact seqLoop_follow_up_rows cfg chunks _ hplan row hrow

/-- Witness for C8 at a concrete planner input and two concrete runs. -/
theorem follow_up_tasks_created_open_witness :
    (∀ t ∈ plan_follow_ups settingsW 200 envW1 insightW,
        t.status = "open" ∧ t.completed_at = none)
    ∧ (∀ row ∈ (MailFetcher.run cfgC6 [(1, behaviorC6)] RepoState.empty).repo.follow_ups,
        row ∈ RepoState.empty.follow_ups
          ∨ (row.status = "open" ∧ row.completed_at = none))
    ∧ (OptimizedMailFetcher.run cfgC3 [(1, obC3a)] RepoState.empty).repo.follow_ups
        = RepoState.empty.follow_ups :=
  follow_up_tasks_created_open settingsW 200 envW1 insightW cfgC6
    [(1, behaviorC6)] RepoState.empty cfgC3 [(1, obC3a)] RepoState.empty
    (by decide)

/-! ## C4: the exclusion rule for drafts and follow-ups -/

/-- **C4**: in both orchestrator variants, an envelope whose assigned
categories meet the exclusion set never receives a draft or a follow-up
write during the run.  Sequentially this is the skip logic; in the
batched variant no draft or follow-up write ever occurs at all (the
cached path writes neither, and the store path raises first). -/
theorem excluded_categories_suppress_drafts_and_follow_ups
    (cfg : SeqConfig) (chunks : List (Nat × MsgBehavior)) (st : RepoState)
    (ocfg : OptConfig) (ochunks : List (Nat × OptMsgBehavior)) (ost : RepoState)
    (hasc : (chunks.map (·.1)).Pairwise (· < ·))
    (hcons : uidConsistentB chunks = true)
    (halign : draftAlignedB chunks = true) :
    (∀ (u : Nat) (cats : List EmailCategory),
      Event.categoriesWrite u cats ∈ (MailFetcher.run cfg chunks st).trace →
      cats.any (fun c => excludedCategories.contains c.key) = true →
      (∀ d, Event.draftWrite d ∈ (MailFetcher.run cfg chunks st).trace →
          d.email_uid ≠ u)
      ∧ (∀ ts, Event.followUpsWrite u ts ∉ (MailFetcher.run cfg chunks st).trace))
    ∧ (∀ e ∈ (OptimizedMailFetcher.run ocfg ochunks ost).trace,
        notDraftOrFollowUp e = true) := by
  constructor
  · intro u cats hmem hexc
    exact seqLoop_excluded cfg chunks _ hasc hcons halign u cats hmem hexc
  · exact optimized_run_events ocfg ochunks ost

/-- Witness for C4 at a spam-categorized message whose drafting and
planning services are eager, plus a concrete batched run. -/
theorem excluded_categories_suppress_witness :
    (∀ (u : Nat) (cats : List EmailCategory),
      Event.categoriesWrite u cats
          ∈ (MailFetcher.run cfgC4 [(1, behaviorC4)] RepoState.empty).trace →
      cats.any (fun c => excludedCategories.contains c.key) = true →
      (∀ d, Event.draftWrite d
            ∈ (MailFetcher.run cfgC4 [(1, behaviorC4)] RepoState.empty).trace →
          d.email_uid ≠ u)
      ∧ (∀ ts, Event.followUpsWrite u ts
            ∉ (MailFetcher.run cfgC4 [(1, behaviorC4)] RepoState.empty).trace))
    ∧ (∀ e ∈ (OptimizedMailFetcher.run cfgC3 [(1, obC3a)] RepoState.empty).trace,
        notDraftOrFollowUp e = true) :=
  excluded_categories_suppress_drafts_and_follow_ups cfgC4 [(1, behaviorC4)]
    RepoState.empty cfgC3 [(1, obC3a)] RepoState.empty
    (by decide) (by decide) (by decide)

end InboxAI
